import Mathlib

/-!
# Dareon2.0: the command resolver of the AI controller

A shallow embedding of `AIController.parseCommand`
(`backend/src/controllers/ai.controller.js`) together with the fragment of
ECMAScript regular-expression matching that its pattern table uses.

JavaScript strings are modelled as lists of characters.  Every pattern of the
table is written with the flag `i` and without the flag `u`; all pattern
characters are ASCII.
-/

namespace Dareon2

/-! ## Data model -/

/-- Intent names: the keys of the object `commandPatterns`, in the order in which
they are written (which is the order `Object.entries` enumerates them). -/
inductive Intent
  | sortFiles
  | syncEmails
  | updateCalendar
  | showFiles
  | searchFiles
  | getStats
  deriving DecidableEq, Repr

/-- A field value of a parameter record: a JavaScript string or `undefined`. -/
inductive Value
  | undefined
  | str (s : String)
  deriving DecidableEq, Repr

/-- A parameter record such as `{ sortBy: 'type' }`: its fields in order. -/
abbrev Parameters := List (String × Value)

/-- What a call can throw: `new ErrorResponse(message, statusCode)`, the
`TypeError` raised by calling a method on `undefined`, or the system error with
which a call of `fs` rejects, given by its `code` (such as `ENOENT`). -/
inductive Thrown
  | errorResponse (message : String) (statusCode : Nat)
  | typeError
  | systemError (code : String)
  deriving DecidableEq, Repr

/-! ## Regular expressions -/

/-- The regular-expression syntax used by the pattern table: runs of literal
characters, `.+`, sequencing, alternation `a|b`, the greedy optional `a?`
and the capture group `(a)` with its index.  A non-capturing group `(?:a)` is
just `a`. -/
inductive Re
  | lit (w : List Char)
  | anyPlus
  | seq (a b : Re)
  | alt (a b : Re)
  | opt (a : Re)
  | group (n : Nat) (a : Re)
  deriving Repr

/-- Captures recorded so far: pairs of a group index and the text it matched,
most recent first.  An index that does not occur is `undefined`. -/
abbrev Caps := List (Nat × List Char)

/-- Canonicalisation of a character under the flag `i` (without `u`): the code of
its upper-case form.  Pattern characters are ASCII, and a non-ASCII character is
never canonicalised to an ASCII one, so only the ASCII letters are folded. -/
def canonicalize (ch : Char) : Nat :=
  if 97 ≤ ch.toNat ∧ ch.toNat ≤ 122 then ch.toNat - 32 else ch.toNat

/-- Line terminators, which `.` does not match: LF, CR, U+2028, U+2029. -/
def isLineTerminator (ch : Char) : Bool :=
  ch.toNat = 10 || ch.toNat = 13 || ch.toNat = 8232 || ch.toNat = 8233

/-- Matching the literal characters `w` at the front of the input: the rest of the
input after them, if every character agrees up to canonicalisation. -/
def litMatch : List Char → List Char → Option (List Char)
  | [], s => some s
  | _ :: _, [] => none
  | c :: w, ch :: s => if canonicalize ch = canonicalize c then litMatch w s else none

/-- The ways `.+` can match at the front of the input, as the rest of the input
after the match, the longest match first (the quantifier is greedy). -/
def anyPlusRests : List Char → List (List Char)
  | [] => []
  | ch :: t => if isLineTerminator ch then [] else anyPlusRests t ++ [t]

/-- Backtracking matcher: all ways the expression matches at the front of the
input, in the order in which a backtracking engine tries them.  Each is the rest
of the input together with the captures. -/
def Re.matchAt : Re → List Char → Caps → List (List Char × Caps)
  | .lit w, s, caps =>
    match litMatch w s with
    | some rest => [(rest, caps)]
    | none => []
  | .anyPlus, s, caps => (anyPlusRests s).map (fun rest => (rest, caps))
  | .seq a b, s, caps => (a.matchAt s caps).flatMap (fun x => b.matchAt x.1 x.2)
  | .alt a b, s, caps => a.matchAt s caps ++ b.matchAt s caps
  | .opt a, s, caps => a.matchAt s caps ++ [(s, caps)]
  | .group n a, s, caps =>
    (a.matchAt s caps).map
      (fun x => (x.1, (n, s.take (s.length - x.1.length)) :: x.2))

/-- The call `str.match(re)` for a regular expression without the flag `g`: the
captures of the first match at the leftmost position where there is one, or
`none` for `null`. -/
def Re.exec (r : Re) : List Char → Option Caps
  | [] => (r.matchAt [] []).head?.map Prod.snd
  | ch :: t =>
    match r.matchAt (ch :: t) [] with
    | x :: _ => some x.2
    | [] => r.exec t

/-- The element `matches[n]` of a match result, for `n ≥ 1`. -/
def capture (m : Caps) (n : Nat) : Option (List Char) := m.lookup n

/-! ## String helpers -/

/-- `String.prototype.toLowerCase`, on the captures of the table, which consist
of ASCII letters and spaces. -/
def toLowerCase (w : List Char) : List Char := w.map Char.toLower

/-- White space and line terminators, as removed by `String.prototype.trim`. -/
def isWhiteSpace (ch : Char) : Bool :=
  let n := ch.toNat
  n = 9 || n = 10 || n = 11 || n = 12 || n = 13 || n = 32 || n = 160 || n = 5760 ||
  (8192 ≤ n && n ≤ 8202) || n = 8232 || n = 8233 || n = 8239 || n = 8287 ||
  n = 12288 || n = 65279

/-- `String.prototype.trim`. -/
def trim (w : List Char) : List Char :=
  ((w.dropWhile isWhiteSpace).reverse.dropWhile isWhiteSpace).reverse

/-- The expression `v || d` for an optional string `v`: `d` when `v` is
`undefined` or the empty string. -/
def orDefault (v : Option (List Char)) (d : String) : Value :=
  match v with
  | some (c :: w) => .str ⟨c :: w⟩
  | _ => .str d

/-! ## The pattern table -/

/-- One entry of `commandPatterns`: its patterns in order and its `extractParams`,
which is `none` when the extractor throws a `TypeError`. -/
structure CommandConfig where
  patterns : List Re
  extractParams : Caps → Option Parameters

/-- The pattern `(type|date|size|name)` as capture group 1. -/
def sortKeyGroup : Re :=
  .group 1 (.alt (.lit "type".data) (.alt (.lit "date".data)
    (.alt (.lit "size".data) (.lit "name".data))))

/-- The pattern `(?:(outlook|gmail) )?`, with capture group 1. -/
def providerOpt : Re :=
  .opt (.seq (.group 1 (.alt (.lit "outlook".data) (.lit "gmail".data))) (.lit " ".data))

/-- The pattern `(?: containing| with)?`. -/
def containingOpt : Re :=
  .opt (.alt (.lit " containing".data) (.lit " with".data))

/-- The pattern `(?:my )?`. -/
def myOpt : Re := .opt (.lit "my ".data)

/-- The entry `sortFiles`. -/
def sortFilesConfig : CommandConfig where
  patterns :=
    [ -- /sort (?:my )?files by (type|date|size|name)/i
      .seq (.lit "sort ".data) (.seq myOpt (.seq (.lit "files by ".data) sortKeyGroup)),
      -- /organize (?:my )?files by (type|date|size|name)/i
      .seq (.lit "organize ".data) (.seq myOpt (.seq (.lit "files by ".data) sortKeyGroup)) ]
  -- (matches) => ({ sortBy: matches[1].toLowerCase() })
  extractParams := fun m =>
    match capture m 1 with
    | some w => some [("sortBy", .str ⟨toLowerCase w⟩)]
    | none => none

/-- The entry `syncEmails`. -/
def syncEmailsConfig : CommandConfig where
  patterns :=
    [ -- /sync (?:my )?(?:(outlook|gmail) )?emails?/i
      .seq (.lit "sync ".data) (.seq myOpt (.seq providerOpt
        (.seq (.lit "email".data) (.opt (.lit "s".data))))),
      -- /update (?:my )?(?:(outlook|gmail) )?emails?/i
      .seq (.lit "update ".data) (.seq myOpt (.seq providerOpt
        (.seq (.lit "email".data) (.opt (.lit "s".data))))) ]
  -- (matches) => ({ provider: matches[1]?.toLowerCase() || 'all' })
  extractParams := fun m =>
    some [("provider", orDefault ((capture m 1).map toLowerCase) "all")]

/-- The entry `updateCalendar`. -/
def updateCalendarConfig : CommandConfig where
  patterns :=
    [ -- /update (?:my )?calendar/i
      .seq (.lit "update ".data) (.seq myOpt (.lit "calendar".data)),
      -- /sync (?:my )?calendar/i
      .seq (.lit "sync ".data) (.seq myOpt (.lit "calendar".data)) ]
  -- () => ({})
  extractParams := fun _ => some []

/-- The entry `showFiles`. -/
def showFilesConfig : CommandConfig where
  patterns :=
    [ -- /show (?:my )?(onedrive )?files/i
      .seq (.lit "show ".data) (.seq myOpt
        (.seq (.opt (.group 1 (.lit "onedrive ".data))) (.lit "files".data))),
      -- /list (?:my )?(onedrive )?files/i
      .seq (.lit "list ".data) (.seq myOpt
        (.seq (.opt (.group 1 (.lit "onedrive ".data))) (.lit "files".data))) ]
  -- (matches) => ({ source: matches[1]?.toLowerCase().trim() || 'local' })
  extractParams := fun m =>
    some [("source", orDefault ((capture m 1).map (fun w => trim (toLowerCase w))) "local")]

/-- The entry `searchFiles`. -/
def searchFilesConfig : CommandConfig where
  patterns :=
    [ -- /search (?:for )?(?:my )?files?(?: containing| with)? (.+)/i
      .seq (.lit "search ".data) (.seq (.opt (.lit "for ".data)) (.seq myOpt
        (.seq (.lit "file".data) (.seq (.opt (.lit "s".data)) (.seq containingOpt
          (.seq (.lit " ".data) (.group 1 .anyPlus))))))),
      -- /find (?:my )?files?(?: containing| with)? (.+)/i
      .seq (.lit "find ".data) (.seq myOpt
        (.seq (.lit "file".data) (.seq (.opt (.lit "s".data)) (.seq containingOpt
          (.seq (.lit " ".data) (.group 1 .anyPlus)))))) ]
  -- (matches) => ({ query: matches[1] })
  extractParams := fun m =>
    match capture m 1 with
    | some w => some [("query", .str ⟨w⟩)]
    | none => some [("query", .undefined)]

/-- The entry `getStats`. -/
def getStatsConfig : CommandConfig where
  patterns :=
    [ -- /show (?:my )?stats/i
      .seq (.lit "show ".data) (.seq myOpt (.lit "stats".data)),
      -- /get (?:my )?statistics/i
      .seq (.lit "get ".data) (.seq myOpt (.lit "statistics".data)) ]
  -- () => ({})
  extractParams := fun _ => some []

/-- The table `commandPatterns`, as `Object.entries` lists it. -/
def commandPatterns : List (Intent × CommandConfig) :=
  [ (.sortFiles, sortFilesConfig),
    (.syncEmails, syncEmailsConfig),
    (.updateCalendar, updateCalendarConfig),
    (.showFiles, showFilesConfig),
    (.searchFiles, searchFilesConfig),
    (.getStats, getStatsConfig) ]

/-! ## The resolver -/

/-- The inner loop `for (const pattern of config.patterns)`: the match result of
the first pattern that matches the command. -/
def firstMatch : List Re → List Char → Option Caps
  | [], _ => none
  | p :: ps, command =>
    match p.exec command with
    | some m => some m
    | none => firstMatch ps command

/-- The outer loop `for (const [intent, config] of Object.entries(...))`: the first
intent one of whose patterns matches, with what its extractor returns. -/
def resolve : List (Intent × CommandConfig) → List Char → Option (Intent × Option Parameters)
  | [], _ => none
  | (intent, config) :: rest, command =>
    match firstMatch config.patterns command with
    | some m => some (intent, config.extractParams m)
    | none => resolve rest command

/-- The method `parseCommand(command)` for a string `command`. -/
def parseCommand (command : String) : Except Thrown (Intent × Parameters) :=
  match resolve commandPatterns command.data with
  | some (intent, some parameters) => .ok (intent, parameters)
  | some (_, none) => .error .typeError
  | none => .error (.errorResponse "Could not understand command" 400)

/-- The call `pattern.test(command)`: whether the pattern matches somewhere. -/
def Re.test (r : Re) (command : List Char) : Bool := (r.exec command).isSome

/-- The intents in the order of the table. -/
def intentOrder : List Intent :=
  [.sortFiles, .syncEmails, .updateCalendar, .showFiles, .searchFiles, .getStats]

/-- Position of an intent in the order of the table. -/
def Intent.rank (i : Intent) : Nat := intentOrder.indexOf i

/-- The failure thrown when no pattern matches. -/
def unrecognizedCommand : Thrown := .errorResponse "Could not understand command" 400

/-- The failure the tests expect for a blank command. -/
def emptyCommand : Thrown := .errorResponse "Command is required" 400

/-! ## Values, users and the file controller -/

/-- A JavaScript value, as far as the controllers build and inspect them. -/
inductive JSValue
  | undefined
  | bool (b : Bool)
  | num (n : Int)
  | str (s : String)
  | arr (items : List JSValue)
  | obj (fields : List (String × JSValue))

/-- A field value of a parameter record as a JavaScript value. -/
def Value.toJS : Value → JSValue
  | .undefined => .undefined
  | .str s => .str s

/-- A field value inside a template literal. -/
def Value.toText : Value → String
  | .undefined => "undefined"
  | .str s => s

/-- The field `parameters[k]` of a parameter record, as destructuring reads it. -/
def field (parameters : Parameters) (k : String) : Value :=
  (parameters.lookup k).getD .undefined

/-- The property access `v.k`: a `TypeError` on `undefined`, the field of an object,
and `undefined` where there is no such field. -/
def JSValue.getProp (v : JSValue) (k : String) : Except Thrown JSValue :=
  match v with
  | .undefined => .error .typeError
  | .obj fields => .ok ((fields.lookup k).getD .undefined)
  | _ => .ok .undefined

/-- The assignment `o[k] = v` on the fields of an object. -/
def setField (fields : List (String × JSValue)) (k : String) (v : JSValue) :
    List (String × JSValue) :=
  match fields with
  | [] => [(k, v)]
  | (k0, v0) :: rest =>
    if k0 = k then (k, v) :: rest else (k0, v0) :: setField rest k v

/-- One entry of `integrations` in the user schema (`user.model.js`): its flag
`connected`, which is `none` when the flag is absent. -/
structure Integration where
  connected : Option Bool
  deriving DecidableEq, Repr

/-- The path `integrations` of a user document; an entry is `none` when it is absent.
The nested path itself is present on every document of the schema. -/
structure Integrations where
  microsoft : Option Integration
  google : Option Integration
  timeTree : Option Integration
  deriving DecidableEq, Repr

/-- A user document, as far as the AI controller reads it. -/
structure User where
  integrations : Integrations
  deriving DecidableEq, Repr

/-- The access `integrations[p]`. -/
def Integrations.get (integrations : Integrations) (p : String) : Option Integration :=
  if p = "microsoft" then integrations.microsoft
  else if p = "google" then integrations.google
  else if p = "timeTree" then integrations.timeTree
  else none

/-- Whether `entry?.connected` is truthy. -/
def connectedFlag (entry : Option Integration) : Bool :=
  match entry with
  | some e => e.connected == some true
  | none => false

/-- What `require` of a module yields, as far as `new` is concerned: a class, or an
object that is not a constructor. -/
inductive ModuleExport
  | classConstructor
  | object
  deriving DecidableEq, Repr

/-- The export of `file.controller.js`, line 230: `module.exports = new FileController();`,
an instance of the class. -/
def fileControllerModule : ModuleExport := .object

/-- The expression `new F()`: a `TypeError` when `F` is not a constructor. -/
def construct : ModuleExport → Except Thrown Unit
  | .classConstructor => .ok ()
  | .object => .error .typeError

/-- The handlers of the file controller as the AI controller calls them: the value of
each `await fileController.handler(req)`.  The handlers are wrapped by `asyncHandler`,
which is not among the sources, so these values are parameters. -/
structure FileService where
  sortFiles : Value → User → Except Thrown JSValue
  getFiles : User → Except Thrown JSValue
  searchFiles : Value → User → Except Thrown JSValue
  getFileStats : User → Except Thrown JSValue

/-! ## The executor -/

/-- The key of an intent in `commandPatterns`, which is what `parseCommand` returns
as `intent`. -/
def Intent.name : Intent → String
  | .sortFiles => "sortFiles"
  | .syncEmails => "syncEmails"
  | .updateCalendar => "updateCalendar"
  | .showFiles => "showFiles"
  | .searchFiles => "searchFiles"
  | .getStats => "getStats"

/-- The method `executeSortFiles({ sortBy }, user)`. -/
def executeSortFiles (fc : FileService) (parameters : Parameters) (user : User) :
    Except Thrown JSValue := do
  let sortBy := field parameters "sortBy"
  construct fileControllerModule
  let files ← fc.sortFiles sortBy user
  let data ← files.getProp "data"
  pure (.obj [("message", .str ("Files sorted by " ++ sortBy.toText)), ("files", data)])

/-- The entry that `executeSyncEmails` records for one provider. -/
def syncOutcome (integrations : Integrations) (p : String) : JSValue :=
  if !connectedFlag (integrations.get p) then
    .obj [("status", .str "error"), ("message", .str "Not connected")]
  else
    .obj [("status", .str "success"), ("message", .str "Emails synchronized")]

/-- The method `executeSyncEmails({ provider }, user)`. -/
def executeSyncEmails (parameters : Parameters) (user : User) : Except Thrown JSValue :=
  let provider := field parameters "provider"
  let integrations := user.integrations
  let providers :=
    if provider = .str "all" then ["microsoft", "google"]
    else [if provider = .str "outlook" then "microsoft" else "google"]
  let results := providers.foldl
    (fun results p => setField results p (syncOutcome integrations p)) []
  .ok (.obj [("message", .str "Email sync completed"), ("results", .obj results)])

/-- The method `executeUpdateCalendar(user)`. -/
def executeUpdateCalendar (user : User) : Except Thrown JSValue :=
  if !connectedFlag user.integrations.timeTree then
    .error (.errorResponse "TimeTree not connected" 400)
  else
    .ok (.obj [("message", .str "Calendar updated successfully"), ("status", .str "success")])

/-- The method `executeShowFiles({ source }, user)`. -/
def executeShowFiles (fc : FileService) (parameters : Parameters) (user : User) :
    Except Thrown JSValue :=
  let source := field parameters "source"
  if source = .str "onedrive" then
    if !connectedFlag user.integrations.microsoft then
      .error (.errorResponse "OneDrive not connected" 400)
    else
      .ok (.obj [("message", .str "OneDrive files retrieved"), ("files", .arr [])])
  else do
    construct fileControllerModule
    let files ← fc.getFiles user
    let data ← files.getProp "data"
    pure (.obj [("message", .str "Local files retrieved"), ("files", data)])

/-- The method `executeSearchFiles({ query }, user)`. -/
def executeSearchFiles (fc : FileService) (parameters : Parameters) (user : User) :
    Except Thrown JSValue := do
  let query := field parameters "query"
  construct fileControllerModule
  let files ← fc.searchFiles query user
  let data ← files.getProp "data"
  pure (.obj [("message", .str ("Search results for \"" ++ query.toText ++ "\"")),
    ("files", data)])

/-- The method `executeGetStats(user)`. -/
def executeGetStats (fc : FileService) (user : User) : Except Thrown JSValue := do
  construct fileControllerModule
  let stats ← fc.getFileStats user
  let data ← stats.getProp "data"
  pure (.obj [("message", .str "Statistics retrieved"), ("stats", data)])

/-- The method `executeCommand(intent, parameters, user)`: the `switch` on the name of
the intent. -/
def executeCommand (fc : FileService) (intent : String) (parameters : Parameters)
    (user : User) : Except Thrown JSValue :=
  if intent = "sortFiles" then executeSortFiles fc parameters user
  else if intent = "syncEmails" then executeSyncEmails parameters user
  else if intent = "updateCalendar" then executeUpdateCalendar user
  else if intent = "showFiles" then executeShowFiles fc parameters user
  else if intent = "searchFiles" then executeSearchFiles fc parameters user
  else if intent = "getStats" then executeGetStats fc user
  else .error (.errorResponse "Unsupported command" 400)

/-- A response written with `res.status(status).json(body)`. -/
structure Response where
  status : Nat
  body : JSValue

/-- The `try` block of `processCommand`: the response it writes, or what is thrown
inside it. -/
def processCommand.attempt (fc : FileService) (command : String) (user : User) :
    Except Thrown Response := do
  let (intent, parameters) ← parseCommand command
  let result ← executeCommand fc intent.name parameters user
  pure ⟨200, .obj [("success", .bool true),
    ("data", .obj [("intent", .str intent.name), ("result", result)])]⟩

/-- The handler `processCommand` for a request with the string `command` in its body
and the authenticated `user`: the response it writes, or the error it throws (which
`asyncHandler` hands to the error middleware).  The `catch` block replaces whatever
was thrown.  Logging is left out. -/
def processCommand (fc : FileService) (command : String) (user : User) :
    Except Thrown Response :=
  match processCommand.attempt fc command user with
  | .ok response => .ok response
  | .error _ => .error (.errorResponse "Failed to process command" 500)

/-- A user as `createTestUser` makes it in `ai.test.js`: no integration is set, so
every `connected` flag has its default `false`. -/
def testUser : User :=
  { integrations :=
      { microsoft := some ⟨some false⟩, google := some ⟨some false⟩,
        timeTree := some ⟨some false⟩ } }

/-- A user connected to google and to nothing else. -/
def googleOnlyUser : User :=
  { integrations :=
      { microsoft := some ⟨some false⟩, google := some ⟨some true⟩,
        timeTree := some ⟨some false⟩ } }

/-- A user connected to microsoft and to nothing else. -/
def microsoftOnlyUser : User :=
  { integrations :=
      { microsoft := some ⟨some true⟩, google := some ⟨some false⟩,
        timeTree := some ⟨some false⟩ } }

/-! ## The sort handler of the file controller -/

/-- An entry of the listing that `getAllFilesRecursively` returns; `modifiedDate` is
the time value of `stats.mtime` in milliseconds. -/
structure FileEntry where
  name : String
  path : String
  size : Nat
  type : String
  modifiedDate : Int
  deriving DecidableEq, Repr

/-- The call `files.sort(compare)` for a consistent comparison function: the sort is
stable, and `a` stays before `b` unless `compare(a, b) > 0`. -/
def jsSort {α : Type} (compare : α → α → Int) (files : List α) : List α :=
  files.insertionSort (fun a b => compare a b ≤ 0)

/-- The method `sortByType`; `localeCompare` is `String.prototype.localeCompare`. -/
def sortByType (localeCompare : String → String → Int) (files : List FileEntry) :
    List FileEntry :=
  jsSort (fun a b => localeCompare a.type b.type) files

/-- The method `sortByDate`. -/
def sortByDate (files : List FileEntry) : List FileEntry :=
  jsSort (fun a b => b.modifiedDate - a.modifiedDate) files

/-- The method `sortBySize`. -/
def sortBySize (files : List FileEntry) : List FileEntry :=
  jsSort (fun a b => (b.size : Int) - (a.size : Int)) files

/-- The method `sortByName`. -/
def sortByName (localeCompare : String → String → Int) (files : List FileEntry) :
    List FileEntry :=
  jsSort (fun a b => localeCompare a.name b.name) files

/-- The response `{ success, data }` of a handler that returns a file listing. -/
structure FileListResponse where
  status : Nat
  success : Bool
  data : List FileEntry
  deriving DecidableEq, Repr

/-- The handler `sortFiles` of the file controller, for the body field `sortBy`.
`listing` is the outcome of `await this.getAllFilesRecursively(userStoragePath)`: the
files of the user's storage directory, or the code of the system error with which
`fs.readdir` or `fs.stat` rejects (`ENOENT` when the directory does not exist).  The
listing is awaited before the `switch`, so its failure is thrown whatever `sortBy` is. -/
def FileController.sortFiles (localeCompare : String → String → Int)
    (listing : Except String (List FileEntry)) (sortBy : Value) :
    Except Thrown FileListResponse :=
  match listing with
  | .error code => .error (.systemError code)
  | .ok files =>
    if sortBy = .str "type" then .ok ⟨200, true, sortByType localeCompare files⟩
    else if sortBy = .str "date" then .ok ⟨200, true, sortByDate files⟩
    else if sortBy = .str "size" then .ok ⟨200, true, sortBySize files⟩
    else if sortBy = .str "name" then .ok ⟨200, true, sortByName localeCompare files⟩
    else .error (.errorResponse "Invalid sort parameter" 400)

/-! ## Specification of the matcher -/

/-- The words a pattern matches under the flag `i`, stated without reference to
the matcher. -/
def Re.Lang : Re → List Char → Prop
  | .lit w, v => v.map canonicalize = w.map canonicalize
  | .anyPlus, v => v ≠ [] ∧ ∀ ch ∈ v, isLineTerminator ch = false
  | .seq a b, v => ∃ x y, v = x ++ y ∧ a.Lang x ∧ b.Lang y
  | .alt a b, v => a.Lang v ∨ b.Lang v
  | .opt a, v => a.Lang v ∨ v = []
  | .group _ a, v => a.Lang v

/-- The pattern has a capture group of index `n` whose body matches the word `w`. -/
def Re.Captures (n : Nat) (w : List Char) : Re → Prop
  | .lit _ => False
  | .anyPlus => False
  | .seq a b => a.Captures n w ∨ b.Captures n w
  | .alt a b => a.Captures n w ∨ b.Captures n w
  | .opt a => a.Captures n w
  | .group k a => (k = n ∧ a.Lang w) ∨ a.Captures n w

/-- Capture group `n` takes part in every match of the pattern. -/
def Re.Binds (n : Nat) : Re → Bool
  | .lit _ => false
  | .anyPlus => false
  | .seq a b => a.Binds n || b.Binds n
  | .alt a b => a.Binds n && b.Binds n
  | .opt _ => false
  | .group k a => k == n || a.Binds n

/-- A command with its ASCII letters in lower case. -/
def asciiLower (command : String) : String := ⟨toLowerCase command.data⟩

/-- Captures with their ASCII letters in lower case. -/
def lowerCaps (caps : Caps) : Caps := caps.map (fun e => (e.1, toLowerCase e.2))

/-- A field value with its ASCII letters in lower case. -/
def Value.lower : Value → Value
  | .undefined => .undefined
  | .str s => .str (asciiLower s)

/-- A parameter record as far as it does not depend on the letter case of the
command: the record itself, except for searchFiles, whose query is put in lower
case. -/
def normalise (i : Intent) (ps : Parameters) : Parameters :=
  match i with
  | .searchFiles => ps.map (fun e => (e.1, e.2.lower))
  | _ => ps

/-- The table is sorted by rank, so "earlier in the table" is "of smaller rank". -/
def RankSorted (table : List (Intent × CommandConfig)) : Prop :=
  table.Pairwise (fun a b => a.1.rank < b.1.rank)

/-- The extractor of an entry does not depend on the letter case of the captures,
except as `normalise` allows. -/
def CaseStable (e : Intent × CommandConfig) : Prop :=
  ∀ m, e.2.extractParams (lowerCaps m) = (e.2.extractParams m).map (normalise e.1)

/-! ## Search and statistics of the file controller -/

/-- An entry of the listing as the object that `getAllFilesRecursively` builds: its
own properties are `name`, `path`, `size`, `type` and `modifiedDate` (a `Date`, given
here by its time value). -/
def FileEntry.toJS (file : FileEntry) : JSValue :=
  .obj [("name", .str file.name), ("path", .str file.path), ("size", .num file.size),
    ("type", .str file.type), ("modifiedDate", .num file.modifiedDate)]

/-- The method call `v.toLowerCase()`: a `TypeError` unless `v` is a string, whose
ASCII letters are put in lower case. -/
def jsToLowerCase : JSValue → Except Thrown String
  | .str s => .ok (asciiLower s)
  | _ => .error .typeError

/-- Whether a value is truthy. -/
def JSValue.truthy : JSValue → Bool
  | .undefined => false
  | .bool b => b
  | .num n => n != 0
  | .str s => s != ""
  | .arr _ => true
  | .obj _ => true

/-- The call `s.includes(q)`: whether `q` occurs in `s`. -/
def includes (s q : String) : Bool :=
  s.data.tails.any (fun t => q.data.isPrefixOf t)

/-- The callback of `files.filter` in `searchFiles`; `stringify` is `JSON.stringify`. -/
def searchFilter (stringify : JSValue → String) (query : Value) (file : FileEntry) :
    Except Thrown Bool := do
  let originalName ← file.toJS.getProp "originalName"
  let name ← jsToLowerCase originalName
  let q ← jsToLowerCase query.toJS
  if includes name q then pure true
  else
    let metadata ← file.toJS.getProp "metadata"
    if metadata.truthy then
      let q2 ← jsToLowerCase query.toJS
      pure (includes (asciiLower (stringify metadata)) q2)
    else pure false

/-- The call `files.filter(callback)` for a callback that may throw. -/
def filterFiles (callback : FileEntry → Except Thrown Bool) :
    List FileEntry → Except Thrown (List FileEntry)
  | [] => .ok []
  | file :: rest =>
    match callback file with
    | .error e => .error e
    | .ok keep =>
      match filterFiles callback rest with
      | .error e => .error e
      | .ok kept => .ok (if keep then file :: kept else kept)

/-- The response `{ success, count, data }` of `searchFiles`. -/
structure SearchResponse where
  status : Nat
  success : Bool
  count : Nat
  data : List FileEntry
  deriving DecidableEq, Repr

/-- The handler `searchFiles` of the file controller, for the query parameter `query`,
from the point where `files` holds the listing read by `getAllFilesRecursively`. -/
def FileController.searchFiles (stringify : JSValue → String) (files : List FileEntry)
    (query : Value) : Except Thrown SearchResponse :=
  match filterFiles (searchFilter stringify query) files with
  | .error e => .error e
  | .ok searchResults => .ok ⟨200, true, searchResults.length, searchResults⟩

/-- The value of a property of a counting accumulator: a number, or the string that
`+ 1` makes of a value that is not a number. -/
inductive Count
  | num (n : Nat)
  | text (s : String)
  deriving DecidableEq, Repr

/-- The property names that an object literal inherits from `Object.prototype`. -/
def objectPrototypeKeys : List String :=
  ["constructor", "__defineGetter__", "__defineSetter__", "hasOwnProperty",
    "__lookupGetter__", "__lookupSetter__", "isPrototypeOf", "propertyIsEnumerable",
    "toString", "valueOf", "__proto__", "toLocaleString"]

/-- The string that `+` makes of the inherited property `k` (as Node prints it):
`constructor` is the function `Object`, `__proto__` is the prototype object, and the
others are native functions of their own name. -/
def inheritedText (k : String) : String :=
  if k = "constructor" then "function Object() \x7b [native code] \x7d"
  else if k = "__proto__" then "[object Object]"
  else "function " ++ k ++ "() \x7b [native code] \x7d"

/-- The array index that a property name is, if it is one: the name is the canonical
decimal numeral (digits only, no leading zero) of a number below 2^32 - 1. -/
def arrayIndex (k : String) : Option Nat :=
  let n := k.data.foldl (fun acc c => 10 * acc + (c.toNat - 48)) 0
  if k.data ≠ [] && k.data.all (fun c => 48 ≤ c.toNat && c.toNat ≤ 57) &&
      (k.data.length = 1 || k.data.head? != some '0') && n < 4294967295 then some n
  else none

/-- Whether an own property is enumerated before a new property that is the array
index `n`: it is an array index itself, and a smaller one. -/
def precedesIndex (n : Nat) (e : String × Count) : Bool :=
  match arrayIndex e.1 with
  | some m => m < n
  | none => false

/-- The assignment `acc[k] = v` to an own property `k`, which keeps its place. -/
def replaceOwn (acc : List (String × Count)) (k : String) (v : Count) :
    List (String × Count) :=
  match acc with
  | [] => []
  | (k0, v0) :: rest => if k0 = k then (k, v) :: rest else (k0, v0) :: replaceOwn rest k v

/-- The assignment `acc[k] = v` that creates or overwrites an own property.  `acc`
lists the own properties in the order in which they are enumerated: the array
indices in ascending order, then the other names in the order of their creation. -/
def setOwn (acc : List (String × Count)) (k : String) (v : Count) : List (String × Count) :=
  if (acc.lookup k).isSome then replaceOwn acc k v
  else
    match arrayIndex k with
    | some n => acc.takeWhile (precedesIndex n) ++ (k, v) :: acc.dropWhile (precedesIndex n)
    | none => acc ++ [(k, v)]

/-- The statement `acc[k] = (acc[k] || 0) + 1` on an accumulator that started as `{}`;
`acc` lists its own properties.  Reading a name that is not an own property finds the
inherited one, if there is one, and assigning a string to `__proto__` has no effect. -/
def increment (acc : List (String × Count)) (k : String) : List (String × Count) :=
  match acc.lookup k with
  | some (.num n) => setOwn acc k (.num (n + 1))
  | some (.text s) => setOwn acc k (if s = "" then .num 1 else .text (s ++ "1"))
  | none =>
    if k = "__proto__" then acc
    else if k ∈ objectPrototypeKeys then setOwn acc k (.text (inheritedText k ++ "1"))
    else setOwn acc k (.num 1)

/-- The method `groupByType`. -/
def groupByType (files : List FileEntry) : List (String × Count) :=
  files.foldl (fun acc file => increment acc (if file.type = "" then "unknown" else file.type)) []

/-- The method `groupByDate`; `isoDate` gives the part of `toISOString()` before `T`. -/
def groupByDate (isoDate : Int → String) (files : List FileEntry) : List (String × Count) :=
  files.foldl (fun acc file => increment acc (isoDate file.modifiedDate)) []

/-- The table `sizeRanges` of `groupBySize`, with `none` for `Infinity`. -/
def sizeRanges : List (String × Option Nat) :=
  [("tiny", some (100 * 1024)), ("small", some (1024 * 1024)),
    ("medium", some (10 * 1024 * 1024)), ("large", some (100 * 1024 * 1024)),
    ("huge", none)]

/-- The loop over `Object.entries(sizeRanges)`: the name of the first range with
`size <= max`. -/
def findRange (size : Nat) : List (String × Option Nat) → Option String
  | [] => none
  | (range, max) :: rest =>
    match max with
    | none => some range
    | some m => if size ≤ m then some range else findRange size rest

/-- The method `groupBySize`. -/
def groupBySize (files : List FileEntry) : List (String × Count) :=
  files.foldl
    (fun acc file =>
      match findRange file.size sizeRanges with
      | some range => increment acc range
      | none => acc) []

/-- The object `stats` of `getFileStats`. -/
structure FileStats where
  totalFiles : Nat
  totalSize : Nat
  byType : List (String × Count)
  byDate : List (String × Count)
  bySize : List (String × Count)
  deriving DecidableEq, Repr

/-- The response `{ success, data }` of `getFileStats`. -/
structure StatsResponse where
  status : Nat
  success : Bool
  data : FileStats
  deriving DecidableEq, Repr

/-- The handler `getFileStats` of the file controller, from the point where `files`
holds the listing read by `getAllFilesRecursively`. -/
def FileController.getFileStats (isoDate : Int → String) (files : List FileEntry) :
    StatsResponse :=
  ⟨200, true,
    { totalFiles := files.length,
      totalSize := files.foldl (fun acc file => acc + file.size) 0,
      byType := groupByType files,
      byDate := groupByDate isoDate files,
      bySize := groupBySize files }⟩

/-- The number held by the property `k` of an accumulator, 0 where there is none. -/
def countOf (acc : List (String × Count)) (k : String) : Nat :=
  match acc.lookup k with
  | some (.num n) => n
  | _ => 0

/-! ## The middleware of `auth.js` -/

/-- A user document, as far as the subscription middleware, the rate limiter and the
billing controller read it; dates are time values in milliseconds.
`stripeSubscriptionId` is `user.subscription.stripeSubscriptionId`, with `none` for
`undefined`: the schema of `user.model.js` has no such path, so it is `none` on every
document read from the database. -/
structure Account where
  id : String
  subscriptionType : String
  subscriptionEndDate : Int
  stripeSubscriptionId : Option String
  storageUsed : Nat
  deriving DecidableEq, Repr

/-- The table `storageLimit` of `checkSubscription`, in bytes. -/
def storageLimit : List (String × Nat) :=
  [("free", 1 * 1024 * 1024 * 1024), ("basic", 10 * 1024 * 1024 * 1024),
    ("premium", 100 * 1024 * 1024 * 1024)]

/-- The middleware `checkSubscription(requiredSubscription)` for a request of `user`
at the time `now`: `.ok ()` for `next()`, and the error for `next(error)`. -/
def checkSubscription (requiredSubscription : String) (now : Int) (user : Account) :
    Except Thrown Unit :=
  let isOnFreeTrial := user.subscriptionType = "free" && now < user.subscriptionEndDate
  let hasRequiredSubscription :=
    user.subscriptionType = requiredSubscription || user.subscriptionType = "premium"
  if !isOnFreeTrial && !hasRequiredSubscription then
    .error (.errorResponse
      ("This feature requires a " ++ requiredSubscription ++ " subscription") 403)
  else
    match storageLimit.lookup user.subscriptionType with
    | some limit =>
      if user.storageUsed ≥ limit then
        .error (.errorResponse "Storage limit reached for your subscription tier" 403)
      else .ok ()
    | none => .ok ()

/-- The map `rateLimit` of one limiter: for each user id that has an entry, the times
of its recorded requests. -/
abbrev RateMap := String → Option (List Int)

/-- The call `rateLimit.set(userId, { requests })`. -/
def RateMap.set (rateLimit : RateMap) (userId : String) (requests : List Int) : RateMap :=
  fun k => if k = userId then some requests else rateLimit k

/-- The middleware that `rateLimiter(requests, minutes)` returns, for a request of the
user `userId` at the time `now` (`Date.now()`): the map afterwards, with `.ok ()` for
`next()` and the error for `next(error)`. -/
def rateLimiter (requests minutes : Nat) (rateLimit : RateMap) (userId : String)
    (now : Int) : RateMap × Except Thrown Unit :=
  match rateLimit userId with
  | some recorded =>
    let windowStart := now - (minutes * 60 * 1000 : Nat)
    let kept := recorded.filter (fun time => time > windowStart)
    if kept.length ≥ requests then
      (rateLimit.set userId kept,
        .error (.errorResponse
          ("Too many requests. Please try again in " ++ toString minutes ++ " minutes") 429))
    else
      (rateLimit.set userId (kept ++ [now]), .ok ())
  | none => (rateLimit.set userId [now], .ok ())

/-- A limiter serving a sequence of requests, each given by its user id and its time,
starting from the map `rateLimit`: the outcome of each request. -/
def serve (requests minutes : Nat) :
    RateMap → List (String × Int) → List (String × Except Thrown Unit)
  | _, [] => []
  | rateLimit, (userId, now) :: rest =>
    let step := rateLimiter requests minutes rateLimit userId now
    (userId, step.2) :: serve requests minutes step.1 rest

/-- The outcomes of the requests of one user, in order. -/
def outcomesOf (userId : String) (served : List (String × Except Thrown Unit)) :
    List (Except Thrown Unit) :=
  (served.filter (fun e => e.1 = userId)).map Prod.snd

/-! ## The billing controller -/

/-- A response `{ success, message }`. -/
structure MessageResponse where
  status : Nat
  success : Bool
  message : String
  deriving DecidableEq, Repr

/-- The handler `updateSubscription` for the body field `planId` and the user `user`:
what it responds or throws, and the user document as it is stored afterwards.
`stripeSucceeds` tells whether the two Stripe calls return, `saveSucceeds` whether
`user.save()` does. -/
def updateSubscription (stripeSucceeds saveSucceeds : Bool) (user : Account)
    (planId : String) : Except Thrown MessageResponse × Account :=
  if user.stripeSubscriptionId = none ∨ user.stripeSubscriptionId = some "" then
    (.error (.errorResponse "No active subscription found" 404), user)
  else if stripeSucceeds && saveSucceeds then
    (.ok ⟨200, true, "Subscription updated successfully"⟩,
      { user with subscriptionType := planId })
  else
    (.error (.errorResponse "Subscription update failed" 500), user)

/-! ## The registration form -/

/-- The character class `[a-z]`. -/
def isLowerLetter (c : Char) : Bool := 97 ≤ c.toNat && c.toNat ≤ 122

/-- The character class `[A-Z]`. -/
def isUpperLetter (c : Char) : Bool := 65 ≤ c.toNat && c.toNat ≤ 90

/-- The character class `\d`. -/
def isDigit (c : Char) : Bool := 48 ≤ c.toNat && c.toNat ≤ 57

/-- The character class `[@$!%*?&]`. -/
def isSpecial (c : Char) : Bool := c ∈ ['@', '$', '!', '%', '*', '?', '&']

/-- The character class `[A-Za-z\d@$!%*?&]`. -/
def isAllowed (c : Char) : Bool :=
  isUpperLetter c || isLowerLetter c || isDigit c || isSpecial c

/-- The lookahead `(?=.*[class])` at the front of `s`: some character of the class
is reached from there over characters other than line terminators. -/
def lookahead (cls : Char → Bool) : List Char → Bool
  | [] => false
  | c :: rest => cls c || (!isLineTerminator c && lookahead cls rest)

/-- Whether the pattern
`/^(?=.*[a-z])(?=.*[A-Z])(?=.*\d)(?=.*[@$!%*?&])[A-Za-z\d@$!%*?&]/`
matches the string: the four lookaheads hold at the start, and the first character
is of the last class. -/
def passwordPattern (s : List Char) : Bool :=
  lookahead isLowerLetter s && lookahead isUpperLetter s && lookahead isDigit s &&
    lookahead isSpecial s &&
    match s with
    | c :: _ => isAllowed c
    | [] => false

/-- The property `length` of a JavaScript string: its number of UTF-16 code units, of
which a character outside the basic plane takes two. -/
def utf16Length (s : List Char) : Nat :=
  (s.map (fun c => if 65536 ≤ c.toNat then 2 else 1)).sum

/-- The rule `password` of `validationSchema`: required, `min(8)` (a `length` of at
least 8) and matching the pattern.  The pattern has no flag `u` and its classes hold
ASCII characters only, so a character outside the basic plane behaves in it as any other
character that is in no class and is no line terminator. -/
def validPassword (password : String) : Bool :=
  password.data ≠ [] && 8 ≤ utf16Length password.data && passwordPattern password.data

/-! ## Reference values for the statements -/

/-- A consistent comparison of strings, by code points: an instance of what
`localeCompare` may be. -/
def codePointCompare (a b : String) : Int :=
  if a < b then -1 else if a = b then 0 else 1

/-- The bucket of a file size as the description of `groupBySize` states it: tiny up
to 100 KB, small up to 1 MB, medium up to 10 MB, large up to 100 MB, huge above. -/
def sizeBucketSpec (size : Nat) : String :=
  if size ≤ 102400 then "tiny"
  else if size ≤ 1048576 then "small"
  else if size ≤ 10485760 then "medium"
  else if size ≤ 104857600 then "large"
  else "huge"

/-- The phrase "show|list [my ][onedrive ]files" in lower case, for its verb, the
optional "my " and whether onedrive is named. -/
def showFilesPhrase (verb my : String) (onedrive : Bool) : String :=
  verb ++ " " ++ my ++ (if onedrive = true then "onedrive " else "") ++ "files"

/-- Three files for the examples: two pdf files and one docx file. -/
def sampleFiles : List FileEntry :=
  [⟨"test1.pdf", "/storage/u/test1.pdf", 2048, "pdf", 1000⟩,
    ⟨"test2.pdf", "/storage/u/test2.pdf", 102400, "pdf", 3000⟩,
    ⟨"test3.docx", "/storage/u/test3.docx", 102401, "docx", 2000⟩]

/-! ## Characters -/

theorem toNat_ofNat_of_lt (n : Nat) (h : n < 55296) : (Char.ofNat n).toNat = n := by
  have hv : n.isValidChar := Or.inl h
  unfold Char.ofNat
  rw [dif_pos hv]
  simp only [Char.ofNatAux, Char.toNat, UInt32.toNat]
  show (BitVec.ofNatLt n _).toNat = n
  simp

theorem char_eq_of_toNat_eq {a b : Char} (h : a.toNat = b.toNat) : a = b := by
  rw [← Char.ofNat_toNat a, ← Char.ofNat_toNat b, h]

theorem toNat_toLower (c : Char) :
    c.toLower.toNat = if 65 ≤ c.toNat ∧ c.toNat ≤ 90 then c.toNat + 32 else c.toNat := by
  unfold Char.toLower
  by_cases h : 65 ≤ c.toNat ∧ c.toNat ≤ 90
  · simp only [ge_iff_le, h, and_self, if_true]
    exact toNat_ofNat_of_lt _ (by omega)
  · simp only [ge_iff_le, h, if_false]

theorem canonicalize_toLower (c : Char) : canonicalize c.toLower = canonicalize c := by
  unfold canonicalize
  rw [toNat_toLower]
  split_ifs <;> omega

theorem canonicalize_eq_iff (a b : Char) :
    canonicalize a = canonicalize b ↔ a.toLower = b.toLower := by
  constructor
  · intro h
    apply char_eq_of_toNat_eq
    rw [toNat_toLower, toNat_toLower]
    unfold canonicalize at h
    split_ifs at h ⊢ <;> omega
  · intro h
    have h2 := congrArg Char.toNat h
    rw [toNat_toLower, toNat_toLower] at h2
    unfold canonicalize
    split_ifs at h2 ⊢ <;> omega

theorem toLower_toLower (c : Char) : c.toLower.toLower = c.toLower := by
  apply char_eq_of_toNat_eq
  rw [toNat_toLower c.toLower, toNat_toLower]
  split_ifs <;> omega

theorem isLineTerminator_toLower (c : Char) :
    isLineTerminator c.toLower = isLineTerminator c := by
  unfold isLineTerminator
  rw [toNat_toLower]
  by_cases h : 65 ≤ c.toNat ∧ c.toNat ≤ 90
  · rw [if_pos h]
    have e1 : decide (c.toNat + 32 = 10) = decide (c.toNat = 10) := by
      apply decide_eq_decide.mpr; omega
    have e2 : decide (c.toNat + 32 = 13) = decide (c.toNat = 13) := by
      apply decide_eq_decide.mpr; omega
    have e3 : decide (c.toNat + 32 = 8232) = decide (c.toNat = 8232) := by
      apply decide_eq_decide.mpr; omega
    have e4 : decide (c.toNat + 32 = 8233) = decide (c.toNat = 8233) := by
      apply decide_eq_decide.mpr; omega
    rw [e1, e2, e3, e4]
  · rw [if_neg h]

theorem isWhiteSpace_toLower (c : Char) : isWhiteSpace c.toLower = isWhiteSpace c := by
  by_cases h : 65 ≤ c.toNat ∧ c.toNat ≤ 90
  · have h1 : isWhiteSpace c = false := by
      unfold isWhiteSpace
      simp only [Bool.or_eq_false_iff, Bool.and_eq_false_iff, decide_eq_false_iff_not]
      omega
    have h2 : isWhiteSpace c.toLower = false := by
      unfold isWhiteSpace
      rw [toNat_toLower, if_pos h]
      simp only [Bool.or_eq_false_iff, Bool.and_eq_false_iff, decide_eq_false_iff_not]
      omega
    rw [h1, h2]
  · have : c.toLower = c := by
      apply char_eq_of_toNat_eq
      rw [toNat_toLower, if_neg h]
    rw [this]

/-! ## Soundness of the matcher -/

theorem litMatch_eq_some {w s rest : List Char} (h : litMatch w s = some rest) :
    ∃ v, s = v ++ rest ∧ v.map canonicalize = w.map canonicalize := by
  induction w generalizing s with
  | nil =>
    simp only [litMatch, Option.some.injEq] at h
    exact ⟨[], by simp [h], rfl⟩
  | cons c w ih =>
    cases s with
    | nil => simp [litMatch] at h
    | cons ch s =>
      by_cases hc : canonicalize ch = canonicalize c
      · simp only [litMatch, hc, if_true] at h
        obtain ⟨v, hv, hm⟩ := ih h
        exact ⟨ch :: v, by simp [hv], by simp [hc, hm]⟩
      · simp [litMatch, hc] at h

theorem mem_anyPlusRests {s rest : List Char} (h : rest ∈ anyPlusRests s) :
    ∃ v, s = v ++ rest ∧ v ≠ [] ∧ ∀ ch ∈ v, isLineTerminator ch = false := by
  induction s with
  | nil => simp [anyPlusRests] at h
  | cons c s ih =>
    cases hc : isLineTerminator c with
    | true => simp [anyPlusRests, hc] at h
    | false =>
      simp only [anyPlusRests, hc, Bool.false_eq_true, if_false, List.mem_append,
        List.mem_singleton] at h
      rcases h with h | h
      · obtain ⟨v, hv, _, hall⟩ := ih h
        refine ⟨c :: v, by simp [hv], by simp, ?_⟩
        intro ch hch
        rcases List.mem_cons.mp hch with rfl | hch
        · exact hc
        · exact hall ch hch
      · subst h
        exact ⟨[c], rfl, by simp, by simp [hc]⟩

theorem matchAt_sound (r : Re) : ∀ {s : List Char} {caps : Caps} {rest : List Char}
    {caps2 : Caps}, (rest, caps2) ∈ r.matchAt s caps →
    (∃ v, s = v ++ rest ∧ r.Lang v) ∧
      ∀ n w, (n, w) ∈ caps2 → (n, w) ∈ caps ∨ r.Captures n w := by
  induction r with
  | lit w =>
    intro s caps rest caps2 h
    cases hl : litMatch w s with
    | none => simp [Re.matchAt, hl] at h
    | some t =>
      simp only [Re.matchAt, hl, List.mem_singleton, Prod.mk.injEq] at h
      obtain ⟨rfl, rfl⟩ := h
      exact ⟨litMatch_eq_some hl, fun n w hm => Or.inl hm⟩
  | anyPlus =>
    intro s caps rest caps2 h
    simp only [Re.matchAt, List.mem_map, Prod.mk.injEq] at h
    obtain ⟨t, ht, rfl, rfl⟩ := h
    exact ⟨mem_anyPlusRests ht, fun n w hm => Or.inl hm⟩
  | seq a b iha ihb =>
    intro s caps rest caps2 h
    simp only [Re.matchAt, List.mem_flatMap] at h
    obtain ⟨x, hx, hb⟩ := h
    obtain ⟨⟨v1, hv1, hl1⟩, hc1⟩ := iha (show (x.1, x.2) ∈ a.matchAt s caps from hx)
    obtain ⟨⟨v2, hv2, hl2⟩, hc2⟩ := ihb hb
    refine ⟨⟨v1 ++ v2, by rw [hv1, hv2, List.append_assoc], v1, v2, rfl, hl1, hl2⟩, ?_⟩
    intro n w hm
    rcases hc2 n w hm with h2 | h2
    · rcases hc1 n w h2 with h1 | h1
      · exact Or.inl h1
      · exact Or.inr (Or.inl h1)
    · exact Or.inr (Or.inr h2)
  | alt a b iha ihb =>
    intro s caps rest caps2 h
    simp only [Re.matchAt, List.mem_append] at h
    rcases h with h | h
    · obtain ⟨⟨v, hv, hl⟩, hc⟩ := iha h
      exact ⟨⟨v, hv, Or.inl hl⟩, fun n w hm => (hc n w hm).imp id Or.inl⟩
    · obtain ⟨⟨v, hv, hl⟩, hc⟩ := ihb h
      exact ⟨⟨v, hv, Or.inr hl⟩, fun n w hm => (hc n w hm).imp id Or.inr⟩
  | opt a iha =>
    intro s caps rest caps2 h
    simp only [Re.matchAt, List.mem_append, List.mem_singleton, Prod.mk.injEq] at h
    rcases h with h | ⟨rfl, rfl⟩
    · obtain ⟨⟨v, hv, hl⟩, hc⟩ := iha h
      exact ⟨⟨v, hv, Or.inl hl⟩, fun n w hm => (hc n w hm).imp id id⟩
    · exact ⟨⟨[], rfl, Or.inr rfl⟩, fun n w hm => Or.inl hm⟩
  | group k a iha =>
    intro s caps rest caps2 h
    simp only [Re.matchAt, List.mem_map, Prod.mk.injEq] at h
    obtain ⟨x, hx, rfl, rfl⟩ := h
    obtain ⟨⟨v, hv, hl⟩, hc⟩ := iha (show (x.1, x.2) ∈ a.matchAt s caps from hx)
    refine ⟨⟨v, hv, hl⟩, ?_⟩
    intro n w hm
    rcases List.mem_cons.mp hm with hm | hm
    · simp only [Prod.mk.injEq] at hm
      obtain ⟨rfl, rfl⟩ := hm
      refine Or.inr (Or.inl ⟨rfl, ?_⟩)
      have : List.take (s.length - x.1.length) s = v := by
        rw [hv]; simp
      rw [this]; exact hl
    · exact (hc n w hm).imp id Or.inr

theorem matchAt_binds (n : Nat) (r : Re) : ∀ {s : List Char} {caps : Caps}
    {rest : List Char} {caps2 : Caps}, (rest, caps2) ∈ r.matchAt s caps →
    (r.Binds n = true ∨ (caps.lookup n).isSome = true) → (caps2.lookup n).isSome = true := by
  induction r with
  | lit w =>
    intro s caps rest caps2 h hb
    cases hl : litMatch w s with
    | none => simp [Re.matchAt, hl] at h
    | some t =>
      simp only [Re.matchAt, hl, List.mem_singleton, Prod.mk.injEq] at h
      obtain ⟨rfl, rfl⟩ := h
      simpa [Re.Binds] using hb
  | anyPlus =>
    intro s caps rest caps2 h hb
    simp only [Re.matchAt, List.mem_map, Prod.mk.injEq] at h
    obtain ⟨t, ht, rfl, rfl⟩ := h
    simpa [Re.Binds] using hb
  | seq a b iha ihb =>
    intro s caps rest caps2 h hb
    simp only [Re.matchAt, List.mem_flatMap] at h
    obtain ⟨x, hx, hxb⟩ := h
    simp only [Re.Binds, Bool.or_eq_true] at hb
    rcases hb with (ha | hb) | hc
    · exact ihb hxb (Or.inr (iha (show (x.1, x.2) ∈ a.matchAt s caps from hx) (Or.inl ha)))
    · exact ihb hxb (Or.inl hb)
    · exact ihb hxb (Or.inr (iha (show (x.1, x.2) ∈ a.matchAt s caps from hx) (Or.inr hc)))
  | alt a b iha ihb =>
    intro s caps rest caps2 h hb
    simp only [Re.matchAt, List.mem_append] at h
    simp only [Re.Binds, Bool.and_eq_true] at hb
    rcases h with h | h
    · exact iha h (hb.imp (fun x => x.1) id)
    · exact ihb h (hb.imp (fun x => x.2) id)
  | opt a iha =>
    intro s caps rest caps2 h hb
    simp only [Re.matchAt, List.mem_append, List.mem_singleton, Prod.mk.injEq] at h
    have hc : (caps.lookup n).isSome = true := by simpa [Re.Binds] using hb
    rcases h with h | ⟨rfl, rfl⟩
    · exact iha h (Or.inr hc)
    · exact hc
  | group k a iha =>
    intro s caps rest caps2 h hb
    simp only [Re.matchAt, List.mem_map, Prod.mk.injEq] at h
    obtain ⟨x, hx, rfl, rfl⟩ := h
    by_cases hk : n = k
    · subst hk
      simp [List.lookup_cons]
    · have hk2 : (n == k) = false := by simpa using hk
      have hk3 : ¬ k = n := fun e => hk e.symm
      rw [List.lookup_cons, hk2]
      apply iha (show (x.1, x.2) ∈ a.matchAt s caps from hx)
      simpa [Re.Binds, hk3] using hb

theorem exec_eq_some {r : Re} {s : List Char} {m : Caps} (h : r.exec s = some m) :
    ∃ t rest, (rest, m) ∈ r.matchAt t [] := by
  induction s with
  | nil =>
    simp only [Re.exec, Option.map_eq_some'] at h
    obtain ⟨x, hx, rfl⟩ := h
    exact ⟨[], x.1, List.mem_of_mem_head? hx⟩
  | cons ch t ih =>
    cases hm : r.matchAt (ch :: t) [] with
    | nil =>
      simp only [Re.exec, hm] at h
      exact ih h
    | cons x xs =>
      simp only [Re.exec, hm, Option.some.injEq] at h
      subst h
      exact ⟨ch :: t, x.1, by rw [hm]; exact List.mem_cons_self _ _⟩

/-! ## Matching and letter case -/

theorem toLowerCase_nil : toLowerCase [] = [] := rfl

theorem toLowerCase_cons (c : Char) (w : List Char) :
    toLowerCase (c :: w) = c.toLower :: toLowerCase w := rfl

theorem toLowerCase_toLowerCase (w : List Char) : toLowerCase (toLowerCase w) = toLowerCase w := by
  simp [toLowerCase, toLower_toLower]

theorem toLowerCase_eq_of_canonicalize_eq {v w : List Char}
    (h : v.map canonicalize = w.map canonicalize) : toLowerCase v = toLowerCase w := by
  induction v generalizing w with
  | nil =>
    cases w with
    | nil => rfl
    | cons c w => simp at h
  | cons a v ih =>
    cases w with
    | nil => simp at h
    | cons c w =>
      simp only [List.map_cons, List.cons.injEq] at h
      simp only [toLowerCase, List.map_cons, List.cons.injEq]
      exact ⟨(canonicalize_eq_iff a c).mp h.1, ih h.2⟩

theorem litMatch_lower (w s : List Char) :
    litMatch w (toLowerCase s) = (litMatch w s).map toLowerCase := by
  induction w generalizing s with
  | nil => simp [litMatch]
  | cons c w ih =>
    cases s with
    | nil => simp [litMatch, toLowerCase]
    | cons ch s =>
      have ih2 := ih s
      simp only [toLowerCase] at ih2
      simp only [toLowerCase, List.map_cons, litMatch, canonicalize_toLower]
      by_cases hc : canonicalize ch = canonicalize c
      · simp only [hc, if_true]; exact ih2
      · simp [hc]

theorem anyPlusRests_lower (s : List Char) :
    anyPlusRests (toLowerCase s) = (anyPlusRests s).map toLowerCase := by
  induction s with
  | nil => simp [anyPlusRests, toLowerCase]
  | cons ch s ih =>
    rw [toLowerCase_cons]
    simp only [anyPlusRests, isLineTerminator_toLower]
    cases isLineTerminator ch with
    | true => simp
    | false => simp [ih]

theorem matchAt_lower (r : Re) : ∀ (s : List Char) (caps : Caps),
    r.matchAt (toLowerCase s) (lowerCaps caps)
      = (r.matchAt s caps).map (fun x => (toLowerCase x.1, lowerCaps x.2)) := by
  induction r with
  | lit w =>
    intro s caps
    simp only [Re.matchAt, litMatch_lower]
    cases litMatch w s <;> simp
  | anyPlus =>
    intro s caps
    simp [Re.matchAt, anyPlusRests_lower, Function.comp_def]
  | seq a b iha ihb =>
    intro s caps
    simp only [Re.matchAt, iha, List.flatMap_map, List.map_flatMap, ihb]
  | alt a b iha ihb =>
    intro s caps
    simp only [Re.matchAt, iha, ihb, List.map_append]
  | opt a iha =>
    intro s caps
    simp only [Re.matchAt, iha, List.map_append, List.map_cons, List.map_nil]
  | group k a iha =>
    intro s caps
    simp only [Re.matchAt, iha, List.map_map]
    apply List.map_congr_left
    intro x _
    simp [lowerCaps, toLowerCase, List.map_take]

theorem exec_lower (r : Re) (s : List Char) :
    r.exec (toLowerCase s) = (r.exec s).map lowerCaps := by
  induction s with
  | nil =>
    have h : r.matchAt [] [] = (r.matchAt [] []).map
        (fun x => (toLowerCase x.1, lowerCaps x.2)) := matchAt_lower r [] []
    show r.exec [] = _
    simp only [Re.exec]
    conv_lhs => rw [h]
    cases r.matchAt [] [] <;> rfl
  | cons ch t ih =>
    have h : r.matchAt (ch.toLower :: toLowerCase t) [] = (r.matchAt (ch :: t) []).map
        (fun x => (toLowerCase x.1, lowerCaps x.2)) := matchAt_lower r (ch :: t) []
    rw [toLowerCase_cons]
    simp only [Re.exec, h]
    cases r.matchAt (ch :: t) [] with
    | nil => exact ih
    | cons x xs => rfl

theorem firstMatch_lower (ps : List Re) (s : List Char) :
    firstMatch ps (toLowerCase s) = (firstMatch ps s).map lowerCaps := by
  induction ps with
  | nil => simp [firstMatch]
  | cons p ps ih =>
    simp only [firstMatch, exec_lower]
    cases p.exec s with
    | none => simpa using ih
    | some m => simp

theorem resolve_lower {table : List (Intent × CommandConfig)}
    (ht : ∀ e ∈ table, CaseStable e) (s : List Char) :
    resolve table (toLowerCase s)
      = (resolve table s).map (fun x => (x.1, x.2.map (normalise x.1))) := by
  induction table with
  | nil => simp [resolve]
  | cons e table ih =>
    obtain ⟨i, config⟩ := e
    have he : CaseStable (i, config) := ht _ (List.mem_cons_self _ _)
    have ih2 := ih (fun e h => ht e (List.mem_cons_of_mem _ h))
    simp only [resolve, firstMatch_lower]
    cases firstMatch config.patterns s with
    | none => simpa using ih2
    | some m => simpa using he m

theorem capture_lowerCaps (m : Caps) (n : Nat) :
    capture (lowerCaps m) n = (capture m n).map toLowerCase := by
  induction m with
  | nil => simp [capture, lowerCaps]
  | cons e m ih =>
    obtain ⟨k, v⟩ := e
    show List.lookup n ((k, toLowerCase v) :: lowerCaps m)
      = (List.lookup n ((k, v) :: m)).map toLowerCase
    rw [List.lookup_cons, List.lookup_cons]
    cases n == k with
    | true => rfl
    | false => exact ih

theorem trim_lower (w : List Char) : trim (toLowerCase w) = toLowerCase (trim w) := by
  have hp : (isWhiteSpace ∘ Char.toLower) = isWhiteSpace := by
    funext c; simp [isWhiteSpace_toLower]
  unfold trim toLowerCase
  rw [List.dropWhile_map, hp, ← List.map_reverse, List.dropWhile_map, hp, ← List.map_reverse]

/-! ## The loops of the resolver -/

theorem firstMatch_eq_none_iff (ps : List Re) (command : List Char) :
    firstMatch ps command = none ↔ ∀ p ∈ ps, p.exec command = none := by
  induction ps with
  | nil => simp [firstMatch]
  | cons p ps ih =>
    cases h : p.exec command with
    | none => simp [firstMatch, h, ih]
    | some m => simp [firstMatch, h]

theorem firstMatch_eq_some {ps : List Re} {command : List Char} {m : Caps}
    (h : firstMatch ps command = some m) : ∃ p ∈ ps, p.exec command = some m := by
  induction ps with
  | nil => simp [firstMatch] at h
  | cons p ps ih =>
    cases hp : p.exec command with
    | none =>
      simp only [firstMatch, hp] at h
      obtain ⟨q, hq, hm⟩ := ih h
      exact ⟨q, List.mem_cons_of_mem _ hq, hm⟩
    | some m0 =>
      simp only [firstMatch, hp, Option.some.injEq] at h
      exact ⟨p, List.mem_cons_self _ _, by rw [hp, h]⟩

theorem resolve_eq_none_iff (table : List (Intent × CommandConfig)) (command : List Char) :
    resolve table command = none ↔
      ∀ e ∈ table, firstMatch e.2.patterns command = none := by
  induction table with
  | nil => simp [resolve]
  | cons e table ih =>
    obtain ⟨i, config⟩ := e
    cases h : firstMatch config.patterns command with
    | none => simp [resolve, h, ih]
    | some m => simp [resolve, h]

theorem resolve_eq_some {table : List (Intent × CommandConfig)} (hs : RankSorted table)
    {command : List Char} {i : Intent} {r : Option Parameters}
    (h : resolve table command = some (i, r)) :
    (∃ config m, (i, config) ∈ table ∧ firstMatch config.patterns command = some m ∧
        r = config.extractParams m) ∧
      ∀ e ∈ table, e.1.rank < i.rank → firstMatch e.2.patterns command = none := by
  induction table with
  | nil => simp [resolve] at h
  | cons e table ih =>
    obtain ⟨i0, config0⟩ := e
    have hs2 := List.pairwise_cons.mp hs
    cases hm : firstMatch config0.patterns command with
    | some m =>
      simp only [resolve, hm, Option.some.injEq, Prod.mk.injEq] at h
      obtain ⟨hi, hr⟩ := h
      subst hi
      refine ⟨⟨config0, m, List.mem_cons_self _ _, hm, hr.symm⟩, ?_⟩
      intro e he hlt
      rcases List.mem_cons.mp he with rfl | he
      · exact absurd hlt (Nat.lt_irrefl _)
      · exact absurd (hs2.1 e he) (Nat.lt_asymm hlt)
    | none =>
      simp only [resolve, hm] at h
      obtain ⟨⟨config, m, hmem, hfm, hr⟩, hearlier⟩ := ih hs2.2 h
      refine ⟨⟨config, m, List.mem_cons_of_mem _ hmem, hfm, hr⟩, ?_⟩
      intro e he hlt
      rcases List.mem_cons.mp he with rfl | he
      · exact hm
      · exact hearlier e he hlt

theorem commandPatterns_rankSorted : RankSorted commandPatterns := by
  unfold RankSorted commandPatterns
  decide

theorem rank_injective {i j : Intent} (h : i.rank = j.rank) : i = j := by
  cases i <;> cases j <;> first | rfl | (exact absurd h (by decide))

theorem parseCommand_eq_ok_iff (command : String) (i : Intent) (ps : Parameters) :
    parseCommand command = .ok (i, ps) ↔
      resolve commandPatterns command.data = some (i, some ps) := by
  unfold parseCommand
  cases h : resolve commandPatterns command.data with
  | none => simp
  | some x =>
    obtain ⟨j, r⟩ := x
    cases r with
    | none => simp
    | some qs => simp

theorem parseCommand_eq_unrecognized_iff (command : String) :
    parseCommand command = .error unrecognizedCommand ↔
      resolve commandPatterns command.data = none := by
  unfold parseCommand unrecognizedCommand
  cases h : resolve commandPatterns command.data with
  | none => simp
  | some x =>
    obtain ⟨j, r⟩ := x
    cases r with
    | none => simp
    | some qs => simp

theorem test_eq_false_iff (p : Re) (command : List Char) :
    p.test command = false ↔ p.exec command = none := by
  unfold Re.test
  cases p.exec command <;> simp

theorem test_eq_true_iff (p : Re) (command : List Char) :
    p.test command = true ↔ ∃ m, p.exec command = some m := by
  unfold Re.test
  cases p.exec command <;> simp

/-! ## The entries of the table -/

theorem mem_of_lookup_eq_some {m : Caps} {n : Nat} {w : List Char}
    (h : m.lookup n = some w) : (n, w) ∈ m := by
  induction m with
  | nil => simp at h
  | cons e m ih =>
    obtain ⟨k, v⟩ := e
    rw [List.lookup_cons] at h
    cases hk : n == k with
    | true =>
      rw [hk] at h
      simp only [Option.some.injEq] at h
      have : n = k := by simpa using hk
      subst this; subst h
      exact List.mem_cons_self _ _
    | false =>
      rw [hk] at h
      exact List.mem_cons_of_mem _ (ih h)

theorem captures_of_exec {p : Re} {s : List Char} {m : Caps} {n : Nat} {w : List Char}
    (h : p.exec s = some m) (hc : capture m n = some w) : p.Captures n w := by
  obtain ⟨t, rest, hmem⟩ := exec_eq_some h
  rcases (matchAt_sound p hmem).2 n w (mem_of_lookup_eq_some hc) with h0 | h0
  · simp at h0
  · exact h0

theorem capture_isSome_of_binds {p : Re} {s : List Char} {m : Caps} {n : Nat}
    (h : p.exec s = some m) (hb : p.Binds n = true) : ∃ w, capture m n = some w := by
  obtain ⟨t, rest, hmem⟩ := exec_eq_some h
  have := matchAt_binds n p hmem (Or.inl hb)
  exact Option.isSome_iff_exists.mp this

theorem commandPatterns_caseStable : ∀ e ∈ commandPatterns, CaseStable e := by
  intro e he
  simp only [commandPatterns, List.mem_cons, List.mem_singleton, List.not_mem_nil,
    or_false] at he
  rcases he with rfl | rfl | rfl | rfl | rfl | rfl
  · intro m
    simp only [sortFilesConfig, capture_lowerCaps]
    cases capture m 1 with
    | none => rfl
    | some w => simp [normalise, toLowerCase_toLowerCase]
  · intro m
    simp only [syncEmailsConfig, capture_lowerCaps]
    cases capture m 1 with
    | none => rfl
    | some w => simp [normalise, toLowerCase_toLowerCase]
  · intro m; rfl
  · intro m
    simp only [showFilesConfig, capture_lowerCaps]
    cases capture m 1 with
    | none => rfl
    | some w => simp [normalise, toLowerCase_toLowerCase]
  · intro m
    simp only [searchFilesConfig, capture_lowerCaps]
    cases capture m 1 with
    | none => rfl
    | some w => rfl
  · intro m; rfl

theorem parseCommand_asciiLower (command : String) :
    parseCommand (asciiLower command)
      = (parseCommand command).map (fun r => (r.1, normalise r.1 r.2)) := by
  unfold parseCommand asciiLower
  rw [resolve_lower commandPatterns_caseStable]
  cases resolve commandPatterns command.data with
  | none => rfl
  | some x =>
    obtain ⟨i, r⟩ := x
    cases r with
    | none => rfl
    | some ps => rfl

theorem sortFiles_pattern_spec {p : Re} (hp : p ∈ sortFilesConfig.patterns) :
    p.Binds 1 = true ∧ ∀ w, p.Captures 1 w →
      toLowerCase w = "type".data ∨ toLowerCase w = "date".data ∨
        toLowerCase w = "size".data ∨ toLowerCase w = "name".data := by
  simp only [sortFilesConfig, List.mem_cons, List.mem_singleton, List.not_mem_nil,
    or_false] at hp
  rcases hp with rfl | rfl <;>
  · refine ⟨rfl, ?_⟩
    intro w hw
    simp only [Re.Captures, Re.Lang, myOpt, sortKeyGroup, false_or, or_false,
      true_and] at hw
    rcases hw with h | h | h | h
    · exact Or.inl (toLowerCase_eq_of_canonicalize_eq h)
    · exact Or.inr (Or.inl (toLowerCase_eq_of_canonicalize_eq h))
    · exact Or.inr (Or.inr (Or.inl (toLowerCase_eq_of_canonicalize_eq h)))
    · exact Or.inr (Or.inr (Or.inr (toLowerCase_eq_of_canonicalize_eq h)))

theorem syncEmails_pattern_spec {p : Re} (hp : p ∈ syncEmailsConfig.patterns) :
    ∀ w, p.Captures 1 w →
      toLowerCase w = "outlook".data ∨ toLowerCase w = "gmail".data := by
  simp only [syncEmailsConfig, List.mem_cons, List.mem_singleton, List.not_mem_nil,
    or_false] at hp
  rcases hp with rfl | rfl <;>
  · intro w hw
    simp only [Re.Captures, Re.Lang, myOpt, providerOpt, false_or, or_false,
      true_and] at hw
    rcases hw with h | h
    · exact Or.inl (toLowerCase_eq_of_canonicalize_eq h)
    · exact Or.inr (toLowerCase_eq_of_canonicalize_eq h)

theorem showFiles_pattern_spec {p : Re} (hp : p ∈ showFilesConfig.patterns) :
    ∀ w, p.Captures 1 w → toLowerCase w = "onedrive ".data := by
  simp only [showFilesConfig, List.mem_cons, List.mem_singleton, List.not_mem_nil,
    or_false] at hp
  rcases hp with rfl | rfl <;>
  · intro w hw
    simp only [Re.Captures, Re.Lang, myOpt, false_or, or_false, true_and] at hw
    exact toLowerCase_eq_of_canonicalize_eq hw

theorem searchFiles_pattern_spec {p : Re} (hp : p ∈ searchFilesConfig.patterns) :
    p.Binds 1 = true ∧ ∀ w, p.Captures 1 w → w ≠ [] := by
  simp only [searchFilesConfig, List.mem_cons, List.mem_singleton, List.not_mem_nil,
    or_false] at hp
  rcases hp with rfl | rfl <;>
  · refine ⟨rfl, ?_⟩
    intro w hw
    simp only [Re.Captures, Re.Lang, myOpt, containingOpt, false_or, or_false,
      true_and] at hw
    exact hw.1

/-- What each extractor returns on a match of one of its own patterns. -/
theorem entry_shape {i : Intent} {config : CommandConfig} {p : Re} {s : List Char} {m : Caps}
    (hi : (i, config) ∈ commandPatterns) (hp : p ∈ config.patterns)
    (hm : p.exec s = some m) :
    ∃ ps, config.extractParams m = some ps ∧
      match i with
      | .sortFiles => ∃ v, v ∈ ["type", "date", "size", "name"] ∧ ps = [("sortBy", .str v)]
      | .syncEmails => ∃ v, v ∈ ["outlook", "gmail", "all"] ∧ ps = [("provider", .str v)]
      | .updateCalendar => ps = []
      | .showFiles => ∃ v, v ∈ ["onedrive", "local"] ∧ ps = [("source", .str v)]
      | .searchFiles => ∃ q, q ≠ "" ∧ ps = [("query", .str q)]
      | .getStats => ps = [] := by
  simp only [commandPatterns, List.mem_cons, List.mem_singleton, List.not_mem_nil,
    or_false, Prod.mk.injEq] at hi
  rcases hi with ⟨rfl, rfl⟩ | ⟨rfl, rfl⟩ | ⟨rfl, rfl⟩ | ⟨rfl, rfl⟩ | ⟨rfl, rfl⟩ | ⟨rfl, rfl⟩
  · obtain ⟨hb, hc⟩ := sortFiles_pattern_spec hp
    obtain ⟨w, hw⟩ := capture_isSome_of_binds hm hb
    refine ⟨[("sortBy", .str ⟨toLowerCase w⟩)], by simp [sortFilesConfig, hw], ?_⟩
    rcases hc w (captures_of_exec hm hw) with h | h | h | h <;> rw [h]
    · exact ⟨"type", by simp, rfl⟩
    · exact ⟨"date", by simp, rfl⟩
    · exact ⟨"size", by simp, rfl⟩
    · exact ⟨"name", by simp, rfl⟩
  · have hc := syncEmails_pattern_spec hp
    cases hw : capture m 1 with
    | none => exact ⟨_, by simp only [syncEmailsConfig, hw]; rfl, "all", by simp, rfl⟩
    | some w =>
      refine ⟨_, by simp only [syncEmailsConfig, hw]; rfl, ?_⟩
      rcases hc w (captures_of_exec hm hw) with h | h
      · exact ⟨"outlook", by simp, by simp only [Option.map, h]; rfl⟩
      · exact ⟨"gmail", by simp, by simp only [Option.map, h]; rfl⟩
  · exact ⟨[], rfl, rfl⟩
  · have hc := showFiles_pattern_spec hp
    cases hw : capture m 1 with
    | none => exact ⟨_, by simp only [showFilesConfig, hw]; rfl, "local", by simp, rfl⟩
    | some w =>
      refine ⟨_, by simp only [showFilesConfig, hw]; rfl, ?_⟩
      have h := hc w (captures_of_exec hm hw)
      exact ⟨"onedrive", by simp, by simp only [Option.map, h]; rfl⟩
  · obtain ⟨hb, hc⟩ := searchFiles_pattern_spec hp
    obtain ⟨w, hw⟩ := capture_isSome_of_binds hm hb
    refine ⟨[("query", .str ⟨w⟩)], by simp [searchFilesConfig, hw], ⟨w⟩, ?_, rfl⟩
    intro h
    exact hc w (captures_of_exec hm hw) (congrArg String.data h)
  · exact ⟨[], rfl, rfl⟩

/-! ## The resolver as a whole -/

theorem parseCommand_ok_shape {command : String} {i : Intent} {ps : Parameters}
    (h : parseCommand command = .ok (i, ps)) :
    (i = .sortFiles → ∃ v, v ∈ ["type", "date", "size", "name"] ∧ ps = [("sortBy", .str v)]) ∧
    (i = .syncEmails → ∃ v, v ∈ ["outlook", "gmail", "all"] ∧ ps = [("provider", .str v)]) ∧
    (i = .updateCalendar → ps = []) ∧
    (i = .showFiles → ∃ v, v ∈ ["onedrive", "local"] ∧ ps = [("source", .str v)]) ∧
    (i = .searchFiles → ∃ q, q ≠ "" ∧ ps = [("query", .str q)]) ∧
    (i = .getStats → ps = []) := by
  have hr := (parseCommand_eq_ok_iff command i ps).mp h
  obtain ⟨⟨config, m, hmem, hfm, hps⟩, _⟩ := resolve_eq_some commandPatterns_rankSorted hr
  obtain ⟨p, hp, hm⟩ := firstMatch_eq_some hfm
  obtain ⟨qs, hq, hshape⟩ := entry_shape hmem hp hm
  rw [hq, Option.some.injEq] at hps
  subst hps
  cases i <;> simp_all

theorem parseCommand_ne_typeError (command : String) :
    parseCommand command ≠ .error .typeError := by
  unfold parseCommand
  cases hr : resolve commandPatterns command.data with
  | none => simp
  | some x =>
    obtain ⟨i, r⟩ := x
    obtain ⟨⟨config, m, hmem, hfm, hps⟩, _⟩ := resolve_eq_some commandPatterns_rankSorted hr
    obtain ⟨p, hp, hm⟩ := firstMatch_eq_some hfm
    obtain ⟨qs, hq, _⟩ := entry_shape hmem hp hm
    rw [hq] at hps
    subst hps
    simp

theorem parseCommand_of_first_match {command : String} {j : Intent} {config : CommandConfig}
    {p : Re} (hj : (j, config) ∈ commandPatterns) (hp : p ∈ config.patterns)
    (hm : p.test command.data = true)
    (hfirst : ∀ i config2 q, (i, config2) ∈ commandPatterns → i.rank < j.rank →
      q ∈ config2.patterns → q.test command.data = false) :
    ∃ ps, parseCommand command = .ok (j, ps) := by
  have hne : p.exec command.data ≠ none := by
    obtain ⟨m, hm2⟩ := (test_eq_true_iff _ _).mp hm
    simp [hm2]
  cases hr : resolve commandPatterns command.data with
  | none =>
    have h1 := (resolve_eq_none_iff _ _).mp hr (j, config) hj
    exact absurd ((firstMatch_eq_none_iff _ _).mp h1 p hp) hne
  | some x =>
    obtain ⟨i, r⟩ := x
    obtain ⟨⟨config2, m, hmem, hfm, hps⟩, hearlier⟩ :=
      resolve_eq_some commandPatterns_rankSorted hr
    obtain ⟨q, hq, hqm⟩ := firstMatch_eq_some hfm
    have hij : i = j := by
      apply rank_injective
      rcases Nat.lt_trichotomy i.rank j.rank with hlt | heq | hgt
      · have := (test_eq_false_iff _ _).mp (hfirst i config2 q hmem hlt hq)
        rw [hqm] at this
        exact absurd this (by simp)
      · exact heq
      · have h1 := hearlier (j, config) hj hgt
        exact absurd ((firstMatch_eq_none_iff _ _).mp h1 p hp) hne
    subst hij
    obtain ⟨qs, hqs, _⟩ := entry_shape hmem hq hqm
    refine ⟨qs, ?_⟩
    rw [parseCommand_eq_ok_iff, hr, hps, hqs]

theorem test_toLowerCase (p : Re) (s : List Char) : p.test (toLowerCase s) = p.test s := by
  unfold Re.test
  rw [exec_lower]
  cases p.exec s <;> rfl

theorem parseCommand_of_asciiLower {command form : String} {i : Intent} {ps : Parameters}
    (h : asciiLower command = form) (hf : parseCommand form = .ok (i, ps))
    (hi : i ≠ .searchFiles) : parseCommand command = .ok (i, ps) := by
  have hl := parseCommand_asciiLower command
  rw [h, hf] at hl
  cases hc : parseCommand command with
  | error e => rw [hc] at hl; simp [Except.map] at hl
  | ok r =>
    obtain ⟨j, qs⟩ := r
    rw [hc] at hl
    simp only [Except.map, Except.ok.injEq, Prod.mk.injEq] at hl
    obtain ⟨hij, hps⟩ := hl
    subst hij
    have : normalise i qs = qs := by
      cases i <;> first | rfl | exact absurd rfl hi
    rw [this] at hps
    rw [hps]

theorem parseCommand_ok_earlier {command : String} {i : Intent} {ps : Parameters}
    (h : parseCommand command = .ok (i, ps)) :
    ∀ j config p, (j, config) ∈ commandPatterns → j.rank < i.rank →
      p ∈ config.patterns → p.test command.data = false := by
  have hr := (parseCommand_eq_ok_iff command i ps).mp h
  obtain ⟨_, hearlier⟩ := resolve_eq_some commandPatterns_rankSorted hr
  intro j config p hj hlt hp
  exact (test_eq_false_iff _ _).mpr
    ((firstMatch_eq_none_iff _ _).mp (hearlier (j, config) hj hlt) p hp)

/-! ## Claims about the order of the table -/

/-- C1: the table lists the intents in the order sortFiles, syncEmails,
updateCalendar, showFiles, searchFiles, getStats, and when `parseCommand` returns
an intent, that intent has a pattern matching the command and no intent earlier in
that order has one. -/
theorem parseCommand_first_intent_wins (command : String) (intent : Intent)
    (parameters : Parameters) (h : parseCommand command = .ok (intent, parameters)) :
    commandPatterns.map Prod.fst = intentOrder ∧
      (∃ config p, (intent, config) ∈ commandPatterns ∧ p ∈ config.patterns ∧
        p.test command.data = true) ∧
      ∀ j config p, (j, config) ∈ commandPatterns → j.rank < intent.rank →
        p ∈ config.patterns → p.test command.data = false := by
  have hr := (parseCommand_eq_ok_iff command intent parameters).mp h
  obtain ⟨⟨config, m, hmem, hfm, _⟩, hearlier⟩ := resolve_eq_some commandPatterns_rankSorted hr
  refine ⟨rfl, ?_, ?_⟩
  · obtain ⟨p, hp, hm⟩ := firstMatch_eq_some hfm
    exact ⟨config, p, hmem, hp, (test_eq_true_iff _ _).mpr ⟨m, hm⟩⟩
  · intro j config2 p hj hlt hp
    have hnone := hearlier (j, config2) hj hlt
    exact (test_eq_false_iff _ _).mpr ((firstMatch_eq_none_iff _ _).mp hnone p hp)

/-- C1 at "sync my emails and update my calendar": it resolves to syncEmails, and
the only earlier intent, sortFiles, has no matching pattern. -/
theorem parseCommand_first_intent_wins_witness :
    parseCommand "sync my emails and update my calendar"
        = .ok (.syncEmails, [("provider", .str "all")]) ∧
      (commandPatterns.map Prod.fst = intentOrder ∧
        (∃ config p, (Intent.syncEmails, config) ∈ commandPatterns ∧ p ∈ config.patterns ∧
          p.test "sync my emails and update my calendar".data = true) ∧
        ∀ j config p, (j, config) ∈ commandPatterns → j.rank < Intent.syncEmails.rank →
          p ∈ config.patterns →
          p.test "sync my emails and update my calendar".data = false) :=
  ⟨rfl, parseCommand_first_intent_wins _ _ _ rfl⟩

/-- C2, as stated, fails: "sync my emails and update my calendar" is not empty and is
matched by the pattern `/update (?:my )?calendar/i` of updateCalendar, yet
`parseCommand` returns syncEmails. -/
theorem parseCommand_owner_counterexample :
    "sync my emails and update my calendar" ≠ "" ∧
      (Intent.updateCalendar, updateCalendarConfig) ∈ commandPatterns ∧
      (Re.seq (.lit "update ".data) (.seq myOpt (.lit "calendar".data)))
        ∈ updateCalendarConfig.patterns ∧
      (Re.seq (.lit "update ".data) (.seq myOpt (.lit "calendar".data))).test
        "sync my emails and update my calendar".data = true ∧
      parseCommand "sync my emails and update my calendar"
        = .ok (.syncEmails, [("provider", .str "all")]) :=
  ⟨by decide, by simp [commandPatterns], List.mem_cons_self _ _, by decide, rfl⟩

/-- C2, amended: when a pattern of the table matches the command and no pattern of
an intent earlier in the table matches it, `parseCommand` returns the intent that
owns the pattern. -/
theorem parseCommand_returns_owner_of_first_match (command : String) (j : Intent)
    (config : CommandConfig) (p : Re) (hj : (j, config) ∈ commandPatterns)
    (hp : p ∈ config.patterns) (hm : p.test command.data = true)
    (hfirst : ∀ i config2 q, (i, config2) ∈ commandPatterns → i.rank < j.rank →
      q ∈ config2.patterns → q.test command.data = false) :
    ∃ ps, parseCommand command = .ok (j, ps) ∧
      ∀ i qs, parseCommand command = .ok (i, qs) → i = j := by
  obtain ⟨ps, h⟩ := parseCommand_of_first_match hj hp hm hfirst
  refine ⟨ps, h, ?_⟩
  intro i qs hi
  rw [h] at hi
  simp only [Except.ok.injEq, Prod.mk.injEq] at hi
  exact hi.1.symm

/-- C2, amended, at "sync my emails and update my calendar" and the pattern
`/sync (?:my )?(?:(outlook|gmail) )?emails?/i` of syncEmails: the two patterns of
sortFiles do not match, and syncEmails is returned. -/
theorem parseCommand_returns_owner_of_first_match_witness :
    ∃ ps, parseCommand "sync my emails and update my calendar" = .ok (.syncEmails, ps) ∧
      ∀ i qs, parseCommand "sync my emails and update my calendar" = .ok (i, qs) →
        i = .syncEmails :=
  parseCommand_returns_owner_of_first_match "sync my emails and update my calendar"
    .syncEmails syncEmailsConfig
    (.seq (.lit "sync ".data) (.seq myOpt (.seq providerOpt
      (.seq (.lit "email".data) (.opt (.lit "s".data))))))
    (by simp [commandPatterns]) (List.mem_cons_self _ _) (by decide)
    (by
      intro i config2 q hi hlt hq
      simp only [commandPatterns, List.mem_cons, List.mem_singleton, List.not_mem_nil,
        or_false, Prod.mk.injEq] at hi
      rcases hi with ⟨rfl, rfl⟩ | ⟨rfl, rfl⟩ | ⟨rfl, rfl⟩ | ⟨rfl, rfl⟩ | ⟨rfl, rfl⟩ | ⟨rfl, rfl⟩
      · simp only [sortFilesConfig, List.mem_cons, List.mem_singleton, List.not_mem_nil,
          or_false] at hq
        rcases hq with rfl | rfl <;> decide
      all_goals exact absurd hlt (by decide))

/-- C3: `parseCommand` throws `ErrorResponse('Could not understand command', 400)`
exactly when none of the patterns of the table matches the command; the table has
twelve patterns, and "do something impossible" matches none of them. -/
theorem parseCommand_unrecognized_iff :
    (∀ command : String,
      parseCommand command = .error (.errorResponse "Could not understand command" 400) ↔
        ∀ i config p, (i, config) ∈ commandPatterns → p ∈ config.patterns →
          p.test command.data = false) ∧
      (commandPatterns.flatMap (fun e => e.2.patterns)).length = 12 ∧
      parseCommand "do something impossible"
        = .error (.errorResponse "Could not understand command" 400) := by
  refine ⟨?_, rfl, rfl⟩
  intro command
  rw [show Thrown.errorResponse "Could not understand command" 400 = unrecognizedCommand from rfl,
    parseCommand_eq_unrecognized_iff, resolve_eq_none_iff]
  constructor
  · intro h i config p hi hp
    exact (test_eq_false_iff _ _).mpr ((firstMatch_eq_none_iff _ _).mp (h (i, config) hi) p hp)
  · intro h e he
    exact (firstMatch_eq_none_iff _ _).mpr
      (fun p hp => (test_eq_false_iff _ _).mp (h e.1 e.2 p he hp))

/-! ## Blank commands -/

/-- C4, on the code: `parseCommand` has no check for a blank command.  It never
throws `ErrorResponse('Command is required', 400)`; for the empty string and for a
string of spaces it tries the table and throws the unrecognized-command failure,
which is a different failure. -/
theorem parseCommand_blank_is_unrecognized :
    (∀ command : String, parseCommand command ≠ .error emptyCommand) ∧
      parseCommand "" = .error (.errorResponse "Could not understand command" 400) ∧
      parseCommand "   " = .error (.errorResponse "Could not understand command" 400) ∧
      Thrown.errorResponse "Could not understand command" 400
        ≠ .errorResponse "Command is required" 400 := by
  refine ⟨?_, rfl, rfl, by decide⟩
  intro command
  unfold parseCommand emptyCommand
  cases resolve commandPatterns command.data with
  | none => simp
  | some x =>
    obtain ⟨i, r⟩ := x
    cases r <;> simp

/-! ## The phrases of the table -/

/-- C5: a command that, up to the case of its ASCII letters, reads
"sort|organize [my ]files by type|date|size|name" resolves to sortFiles with
parameters `{ sortBy: <the key in lower case> }`. -/
theorem parseCommand_sortFiles_phrase (verb my key command : String)
    (hverb : verb ∈ ["sort", "organize"]) (hmy : my ∈ ["my ", ""])
    (hkey : key ∈ ["type", "date", "size", "name"])
    (h : asciiLower command = verb ++ " " ++ my ++ "files by " ++ key) :
    parseCommand command = .ok (.sortFiles, [("sortBy", .str key)]) := by
  simp only [List.mem_cons, List.mem_singleton, List.not_mem_nil, or_false]
    at hverb hmy hkey
  rcases hverb with rfl | rfl <;> rcases hmy with rfl | rfl <;>
    rcases hkey with rfl | rfl | rfl | rfl <;>
    exact parseCommand_of_asciiLower h rfl (by decide)

/-- C5 at "sort my files by type": sortFiles with `{ sortBy: 'type' }`. -/
theorem parseCommand_sortFiles_phrase_witness :
    parseCommand "sort my files by type" = .ok (.sortFiles, [("sortBy", .str "type")]) :=
  parseCommand_sortFiles_phrase "sort" "my " "type" "sort my files by type"
    (by simp) (by simp) (by simp) rfl

/-- C6: a command that, up to the case of its ASCII letters, reads
"sync|update [my ][outlook |gmail ]email[s]" resolves to syncEmails, with the named
provider in lower case as `provider`, or "all" when none is named. -/
theorem parseCommand_syncEmails_phrase (verb my : String) (provider : Option String)
    (plural command : String)
    (hverb : verb ∈ ["sync", "update"]) (hmy : my ∈ ["my ", ""])
    (hprovider : provider ∈ [some "outlook", some "gmail", none])
    (hplural : plural ∈ ["s", ""])
    (h : asciiLower command = verb ++ " " ++ my ++
      (match provider with
        | some name => name ++ " "
        | none => "") ++ "email" ++ plural) :
    parseCommand command = .ok (.syncEmails, [("provider", .str (provider.getD "all"))]) := by
  simp only [List.mem_cons, List.mem_singleton, List.not_mem_nil, or_false]
    at hverb hmy hprovider hplural
  rcases hverb with rfl | rfl <;> rcases hmy with rfl | rfl <;>
    rcases hprovider with rfl | rfl | rfl <;> rcases hplural with rfl | rfl <;>
    exact parseCommand_of_asciiLower h rfl (by decide)

/-- C6 at "sync my outlook emails": syncEmails with `{ provider: 'outlook' }`. -/
theorem parseCommand_syncEmails_phrase_witness :
    parseCommand "sync my outlook emails"
      = .ok (.syncEmails, [("provider", .str "outlook")]) :=
  parseCommand_syncEmails_phrase "sync" "my " (some "outlook") "s" "sync my outlook emails"
    (by simp) (by simp) (by simp) (by simp) rfl

/-- A command that, up to the case of its ASCII letters, reads
"update|sync [my ]calendar" resolves to updateCalendar with the empty parameter
record; no pattern of syncEmails matches such a command. -/
theorem parseCommand_updateCalendar_exact (verb my command : String)
    (hverb : verb ∈ ["update", "sync"]) (hmy : my ∈ ["my ", ""])
    (h : asciiLower command = verb ++ " " ++ my ++ "calendar") :
    parseCommand command = .ok (.updateCalendar, []) ∧
      ∀ p ∈ syncEmailsConfig.patterns, p.test command.data = false := by
  have hres : parseCommand command = .ok (.updateCalendar, []) := by
    simp only [List.mem_cons, List.mem_singleton, List.not_mem_nil, or_false] at hverb hmy
    rcases hverb with rfl | rfl <;> rcases hmy with rfl | rfl <;>
      exact parseCommand_of_asciiLower h rfl (by decide)
  refine ⟨hres, ?_⟩
  intro p hp
  exact parseCommand_ok_earlier hres .syncEmails syncEmailsConfig p
    (by simp [commandPatterns]) (by decide) hp

/-- A command that, up to the case of its ASCII letters, reads
"show|list [my ][onedrive ]files" resolves to showFiles, with `source` equal to
"onedrive" when onedrive is named and to "local" when it is not; no pattern of an
earlier intent matches such a command. -/
theorem parseCommand_showFiles_exact (verb my : String) (onedrive : Bool)
    (command : String) (hverb : verb ∈ ["show", "list"]) (hmy : my ∈ ["my ", ""])
    (h : asciiLower command = showFilesPhrase verb my onedrive) :
    parseCommand command
        = .ok (.showFiles, [("source", .str (if onedrive = true then "onedrive" else "local"))]) ∧
      ∀ i config p, (i, config) ∈ commandPatterns → i.rank < Intent.showFiles.rank →
        p ∈ config.patterns → p.test command.data = false := by
  have hres : parseCommand command
      = .ok (.showFiles, [("source", .str (if onedrive = true then "onedrive" else "local"))]) := by
    simp only [List.mem_cons, List.mem_singleton, List.not_mem_nil, or_false] at hverb hmy
    rcases hverb with rfl | rfl <;> rcases hmy with rfl | rfl <;> cases onedrive <;>
      exact parseCommand_of_asciiLower h rfl (by decide)
  exact ⟨hres, parseCommand_ok_earlier hres⟩

/-! ## Parameters -/

/-- C9: `parseCommand` never fails inside an extractor, and the parameters of a
resolved command have every declared field set to a non-empty string: `sortBy` is
type, date, size or name; `provider` is outlook, gmail or all; `source` is onedrive
or local; `query` is not empty; updateCalendar and getStats carry `{}`. -/
theorem parseCommand_parameters_total (command : String) :
    parseCommand command ≠ .error .typeError ∧
      ∀ i ps, parseCommand command = .ok (i, ps) →
        (i = .sortFiles →
          ∃ v, v ∈ ["type", "date", "size", "name"] ∧ ps = [("sortBy", .str v)]) ∧
        (i = .syncEmails →
          ∃ v, v ∈ ["outlook", "gmail", "all"] ∧ ps = [("provider", .str v)]) ∧
        (i = .updateCalendar → ps = []) ∧
        (i = .showFiles → ∃ v, v ∈ ["onedrive", "local"] ∧ ps = [("source", .str v)]) ∧
        (i = .searchFiles → ∃ q, q ≠ "" ∧ ps = [("query", .str q)]) ∧
        (i = .getStats → ps = []) :=
  ⟨parseCommand_ne_typeError command, fun _ _ h => parseCommand_ok_shape h⟩

/-- C9 at "find files report", which resolves to searchFiles: the query is a
non-empty string. -/
theorem parseCommand_parameters_total_witness :
    parseCommand "find files report" = .ok (.searchFiles, [("query", .str "report")]) ∧
      ∃ q, q ≠ "" ∧ [("query", Value.str "report")] = [("query", Value.str q)] :=
  ⟨rfl, ((parseCommand_parameters_total "find files report").2 .searchFiles
    [("query", .str "report")] rfl).2.2.2.2.1 rfl⟩

/-! ## Letter case -/

/-- C10, as stated, fails: "find files REPORT" and "find files report" differ only
in the case of ASCII letters, and `parseCommand` returns different parameters for
them. -/
theorem parseCommand_case_counterexample :
    asciiLower "find files REPORT" = asciiLower "find files report" ∧
      parseCommand "find files REPORT" = .ok (.searchFiles, [("query", .str "REPORT")]) ∧
      parseCommand "find files report" = .ok (.searchFiles, [("query", .str "report")]) ∧
      parseCommand "find files REPORT" ≠ parseCommand "find files report" := by
  refine ⟨by decide, rfl, rfl, ?_⟩
  rw [show parseCommand "find files REPORT"
      = .ok (.searchFiles, [("query", .str "REPORT")]) from rfl,
    show parseCommand "find files report"
      = .ok (.searchFiles, [("query", .str "report")]) from rfl]
  simp only [ne_eq, Except.ok.injEq, Prod.mk.injEq, List.cons.injEq, Value.str.injEq,
    true_and, and_true]
  decide

/-- C10, amended: for two commands that differ only in the case of ASCII letters,
`parseCommand` fails for both with the same failure or returns for both the same
intent; the parameters are the same too, except for searchFiles, whose two queries
are taken from the commands as written and differ only in the case of ASCII
letters. -/
theorem parseCommand_case_insensitive (c1 c2 : String) (h : asciiLower c1 = asciiLower c2) :
    (∀ e, parseCommand c1 = .error e ↔ parseCommand c2 = .error e) ∧
      ∀ i ps, parseCommand c1 = .ok (i, ps) →
        ∃ qs, parseCommand c2 = .ok (i, qs) ∧
          (i ≠ .searchFiles → qs = ps) ∧
          (i = .searchFiles → ∃ q1 q2, ps = [("query", .str q1)] ∧
            qs = [("query", .str q2)] ∧ asciiLower q1 = asciiLower q2) := by
  have h1 := parseCommand_asciiLower c1
  have h2 := parseCommand_asciiLower c2
  rw [h, h2] at h1
  cases hc1 : parseCommand c1 with
  | error e1 =>
    cases hc2 : parseCommand c2 with
    | error e2 =>
      rw [hc1, hc2] at h1
      simp only [Except.map, Except.error.injEq] at h1
      subst h1
      exact ⟨fun e => Iff.rfl, fun i ps hok => by simp at hok⟩
    | ok r2 => rw [hc1, hc2] at h1; simp [Except.map] at h1
  | ok r1 =>
    cases hc2 : parseCommand c2 with
    | error e2 => rw [hc1, hc2] at h1; simp [Except.map] at h1
    | ok r2 =>
      obtain ⟨i1, p1⟩ := r1
      obtain ⟨i2, p2⟩ := r2
      rw [hc1, hc2] at h1
      simp only [Except.map, Except.ok.injEq, Prod.mk.injEq] at h1
      obtain ⟨hi, hp⟩ := h1
      subst hi
      refine ⟨fun e => by simp, ?_⟩
      intro i ps hok
      simp only [Except.ok.injEq, Prod.mk.injEq] at hok
      obtain ⟨rfl, rfl⟩ := hok
      refine ⟨p2, rfl, ?_, ?_⟩
      · intro hne
        have e1 : normalise i2 p1 = p1 := by
          cases i2 <;> first | rfl | exact absurd rfl hne
        have e2 : normalise i2 p2 = p2 := by
          cases i2 <;> first | rfl | exact absurd rfl hne
        rw [e1, e2] at hp
        exact hp
      · intro hs
        subst hs
        obtain ⟨q1, _, hq1⟩ := (parseCommand_ok_shape hc1).2.2.2.2.1 rfl
        obtain ⟨q2, _, hq2⟩ := (parseCommand_ok_shape hc2).2.2.2.2.1 rfl
        subst hq1; subst hq2
        refine ⟨q1, q2, rfl, rfl, ?_⟩
        simpa [normalise, Value.lower] using hp.symm

/-- C10, amended, at "Sort my FILES by Date" and "sort my files by date": both
resolve to sortFiles with `{ sortBy: 'date' }`. -/
theorem parseCommand_case_insensitive_witness :
    asciiLower "Sort my FILES by Date" = asciiLower "sort my files by date" ∧
      parseCommand "Sort my FILES by Date" = .ok (.sortFiles, [("sortBy", .str "date")]) ∧
      ∃ qs, parseCommand "sort my files by date" = .ok (.sortFiles, qs) ∧
        (Intent.sortFiles ≠ .searchFiles → qs = [("sortBy", .str "date")]) ∧
        (Intent.sortFiles = .searchFiles → ∃ q1 q2, [("sortBy", Value.str "date")]
            = [("query", .str q1)] ∧
          qs = [("query", .str q2)] ∧ asciiLower q1 = asciiLower q2) :=
  ⟨by decide, rfl,
    (parseCommand_case_insensitive "Sort my FILES by Date" "sort my files by date"
      (by decide)).2 .sortFiles [("sortBy", .str "date")] rfl⟩

/-! ## The executor and the delivery boundary -/

theorem processCommand_ok_or_server_error (fc : FileService) (command : String)
    (user : User) :
    (∃ response, processCommand fc command user = .ok response) ∨
      processCommand fc command user
        = .error (.errorResponse "Failed to process command" 500) := by
  unfold processCommand
  cases processCommand.attempt fc command user with
  | ok response => exact Or.inl ⟨response, rfl⟩
  | error e => exact Or.inr rfl

theorem executeUpdateCalendar_cases (user : User) :
    (connectedFlag user.integrations.timeTree = false ∧
        executeUpdateCalendar user = .error (.errorResponse "TimeTree not connected" 400)) ∨
      (connectedFlag user.integrations.timeTree = true ∧
        executeUpdateCalendar user = .ok (.obj [("message", .str "Calendar updated successfully"),
          ("status", .str "success")])) := by
  unfold executeUpdateCalendar
  cases h : connectedFlag user.integrations.timeTree
  · exact Or.inl ⟨rfl, rfl⟩
  · exact Or.inr ⟨rfl, rfl⟩

theorem connectedFlag_eq_true_iff (entry : Option Integration) :
    connectedFlag entry = true ↔ entry.bind Integration.connected = some true := by
  cases entry with
  | none => simp [connectedFlag]
  | some e => simp [connectedFlag]

theorem executeShowFiles_onedrive_cases (fc : FileService) (user : User) :
    (connectedFlag user.integrations.microsoft = false ∧
        executeShowFiles fc [("source", .str "onedrive")] user
          = .error (.errorResponse "OneDrive not connected" 400)) ∨
      (connectedFlag user.integrations.microsoft = true ∧
        executeShowFiles fc [("source", .str "onedrive")] user
          = .ok (.obj [("message", .str "OneDrive files retrieved"), ("files", .arr [])])) := by
  have hs : field [("source", Value.str "onedrive")] "source" = .str "onedrive" := rfl
  unfold executeShowFiles
  simp only [hs, if_true]
  cases h : connectedFlag user.integrations.microsoft
  · exact Or.inl ⟨rfl, rfl⟩
  · exact Or.inr ⟨rfl, rfl⟩

theorem executeShowFiles_local (fc : FileService) (source : Value) (user : User)
    (h : source ≠ .str "onedrive") :
    executeShowFiles fc [("source", source)] user = .error .typeError := by
  have hs : field [("source", source)] "source" = source := rfl
  unfold executeShowFiles
  simp only [hs, if_neg h]
  rfl

theorem error_ne_error {α : Type} {a b : Thrown} (h : a ≠ b) :
    (Except.error a : Except Thrown α) ≠ .error b :=
  fun e => h (Except.error.inj e)

theorem executeCommand_handled_ne_unsupported (fc : FileService) (intent : String)
    (parameters : Parameters) (user : User)
    (h : intent ∈ ["sortFiles", "syncEmails", "updateCalendar", "showFiles", "searchFiles",
      "getStats"]) :
    executeCommand fc intent parameters user
      ≠ .error (.errorResponse "Unsupported command" 400) := by
  simp only [List.mem_cons, List.mem_singleton, List.not_mem_nil, or_false] at h
  rcases h with rfl | rfl | rfl | rfl | rfl | rfl
  · have h0 : executeCommand fc "sortFiles" parameters user = .error .typeError := rfl
    rw [h0]; intro h; cases h
  · have h0 : executeCommand fc "syncEmails" parameters user
        = executeSyncEmails parameters user := rfl
    rw [h0]; intro h; cases h
  · have h0 : executeCommand fc "updateCalendar" parameters user
        = executeUpdateCalendar user := rfl
    rw [h0]
    rcases executeUpdateCalendar_cases user with ⟨_, h1⟩ | ⟨_, h1⟩
    · rw [h1]; exact error_ne_error (by decide)
    · rw [h1]; intro h; cases h
  · have h0 : executeCommand fc "showFiles" parameters user
        = executeShowFiles fc parameters user := rfl
    rw [h0]
    unfold executeShowFiles
    simp only
    split
    · split
      · exact error_ne_error (by decide)
      · intro h; cases h
    · intro h
      have h1 : (construct fileControllerModule : Except Thrown Unit) = .error .typeError := rfl
      rw [h1] at h
      cases h
  · have h0 : executeCommand fc "searchFiles" parameters user = .error .typeError := rfl
    rw [h0]; intro h; cases h
  · have h0 : executeCommand fc "getStats" parameters user = .error .typeError := rfl
    rw [h0]; intro h; cases h

theorem executeCommand_unhandled (fc : FileService) (intent : String)
    (parameters : Parameters) (user : User)
    (h : intent ∉ ["sortFiles", "syncEmails", "updateCalendar", "showFiles", "searchFiles",
      "getStats"]) :
    executeCommand fc intent parameters user
      = .error (.errorResponse "Unsupported command" 400) := by
  simp only [List.mem_cons, List.mem_singleton, List.not_mem_nil, or_false, not_or] at h
  obtain ⟨h1, h2, h3, h4, h5, h6⟩ := h
  unfold executeCommand
  rw [if_neg h1, if_neg h2, if_neg h3, if_neg h4, if_neg h5, if_neg h6]

theorem intent_name_mem (i : Intent) :
    i.name ∈ ["sortFiles", "syncEmails", "updateCalendar", "showFiles", "searchFiles",
      "getStats"] := by
  cases i <;> simp [Intent.name]

/-- C11, on the code: `processCommand` never ends with a client error.  Whatever is
thrown inside its `try` block is replaced by
`ErrorResponse('Failed to process command', 500)`; so it is for "do something
impossible", where `parseCommand` throws 'Could not understand command' with status
400, and for the empty command. -/
theorem processCommand_unrecognized_is_server_error :
    (∀ (fc : FileService) (command : String) (user : User),
      (∃ response, processCommand fc command user = .ok response) ∨
        processCommand fc command user
          = .error (.errorResponse "Failed to process command" 500)) ∧
      parseCommand "do something impossible"
        = .error (.errorResponse "Could not understand command" 400) ∧
      (∀ (fc : FileService) (user : User),
        processCommand fc "do something impossible" user
          = .error (.errorResponse "Failed to process command" 500)) ∧
      (∀ (fc : FileService) (user : User),
        processCommand fc "" user
          = .error (.errorResponse "Failed to process command" 500)) :=
  ⟨processCommand_ok_or_server_error, rfl, fun _ _ => rfl, fun _ _ => rfl⟩

/-- C12, on the code: for a user without a TimeTree connection the executor throws
'TimeTree not connected' with status 400 on "update my calendar", and without a
Microsoft connection 'OneDrive not connected' with status 400 on "show my onedrive
files"; in both cases `processCommand` throws 'Failed to process command' with status
500 instead.  When the handler returns a result, as for "sync my emails", the
response has status 200 and data `{ intent, result }`. -/
theorem processCommand_masks_executor_failure :
    (∀ fc : FileService,
      executeCommand fc "updateCalendar" [] testUser
          = .error (.errorResponse "TimeTree not connected" 400) ∧
        processCommand fc "update my calendar" testUser
          = .error (.errorResponse "Failed to process command" 500)) ∧
      (∀ fc : FileService,
        executeCommand fc "showFiles" [("source", .str "onedrive")] testUser
            = .error (.errorResponse "OneDrive not connected" 400) ∧
          processCommand fc "show my onedrive files" testUser
            = .error (.errorResponse "Failed to process command" 500)) ∧
      (∀ fc : FileService,
        processCommand fc "sync my emails" testUser
          = .ok ⟨200, .obj [("success", .bool true),
              ("data", .obj [("intent", .str "syncEmails"),
                ("result", .obj [("message", .str "Email sync completed"),
                  ("results", .obj [
                    ("microsoft", .obj [("status", .str "error"),
                      ("message", .str "Not connected")]),
                    ("google", .obj [("status", .str "error"),
                      ("message", .str "Not connected")])])])])]⟩) :=
  ⟨fun _ => ⟨rfl, rfl⟩, fun _ => ⟨rfl, rfl⟩, fun _ => rfl⟩

/-- C13: with provider "all", `executeSyncEmails` returns a result whose `results`
has exactly the keys microsoft and google, each with status "success" when that
integration's `connected` flag is true and otherwise with status "error" and the
message "Not connected"; for a user connected to google only, microsoft is the error
and google the success. -/
theorem executeSyncEmails_all (user : User) :
    executeSyncEmails [("provider", .str "all")] user
        = .ok (.obj [("message", .str "Email sync completed"),
            ("results", .obj [
              ("microsoft",
                if user.integrations.microsoft.bind Integration.connected = some true then
                  .obj [("status", .str "success"), ("message", .str "Emails synchronized")]
                else .obj [("status", .str "error"), ("message", .str "Not connected")]),
              ("google",
                if user.integrations.google.bind Integration.connected = some true then
                  .obj [("status", .str "success"), ("message", .str "Emails synchronized")]
                else .obj [("status", .str "error"), ("message", .str "Not connected")])])]) ∧
      executeSyncEmails [("provider", .str "all")]
          googleOnlyUser
        = .ok (.obj [("message", .str "Email sync completed"),
            ("results", .obj [
              ("microsoft", .obj [("status", .str "error"), ("message", .str "Not connected")]),
              ("google", .obj [("status", .str "success"),
                ("message", .str "Emails synchronized")])])]) := by
  refine ⟨?_, rfl⟩
  obtain ⟨⟨m, g, t⟩⟩ := user
  rcases m with _ | ⟨_ | _ | _⟩ <;> rcases g with _ | ⟨_ | _ | _⟩ <;> rfl

/-- C14, as stated, fails: with provider "microsoft", for a user connected to
microsoft and not to google, `executeSyncEmails` returns a `results` record whose only
key is google, reporting that google is not connected. -/
theorem executeSyncEmails_microsoft_counterexample :
    executeSyncEmails [("provider", .str "microsoft")]
        microsoftOnlyUser
      = .ok (.obj [("message", .str "Email sync completed"),
          ("results", .obj [
            ("google", .obj [("status", .str "error"), ("message", .str "Not connected")])])]) :=
  rfl

/-- C14, amended: with a provider other than "all", `executeSyncEmails` returns a
`results` record with one key: microsoft, with the state of the microsoft
integration, when the provider is "outlook", and google, with the state of the google
integration, for every other provider. -/
theorem executeSyncEmails_single (provider : Value) (user : User)
    (h : provider ≠ .str "all") :
    executeSyncEmails [("provider", provider)] user
      = .ok (.obj [("message", .str "Email sync completed"),
          ("results", .obj [
            (if provider = .str "outlook" then "microsoft" else "google",
              if (if provider = .str "outlook" then user.integrations.microsoft
                  else user.integrations.google).bind Integration.connected = some true then
                .obj [("status", .str "success"), ("message", .str "Emails synchronized")]
              else .obj [("status", .str "error"), ("message", .str "Not connected")])])]) := by
  have hf : field [("provider", provider)] "provider" = provider := rfl
  unfold executeSyncEmails
  simp only [hf, if_neg h]
  obtain ⟨⟨m, g, t⟩⟩ := user
  by_cases ho : provider = .str "outlook"
  · simp only [if_pos ho]
    rcases m with _ | ⟨_ | _ | _⟩ <;> rfl
  · simp only [if_neg ho]
    rcases g with _ | ⟨_ | _ | _⟩ <;> rfl

/-- C14, amended, at the provider "outlook" and a user connected to microsoft only:
the only key is microsoft, with status "success". -/
theorem executeSyncEmails_single_witness :
    executeSyncEmails [("provider", .str "outlook")]
        microsoftOnlyUser
      = .ok (.obj [("message", .str "Email sync completed"),
          ("results", .obj [
            ("microsoft", .obj [("status", .str "success"),
              ("message", .str "Emails synchronized")])])]) :=
  executeSyncEmails_single (.str "outlook")
    microsoftOnlyUser (by decide)

/-- C15: `executeUpdateCalendar` throws `ErrorResponse('TimeTree not connected', 400)`
exactly when the `connected` flag of the user's timeTree integration is not true
(false or absent), and otherwise returns
`{ message: 'Calendar updated successfully', status: 'success' }`. -/
theorem executeUpdateCalendar_spec (user : User) :
    (executeUpdateCalendar user = .error (.errorResponse "TimeTree not connected" 400) ↔
        user.integrations.timeTree.bind Integration.connected ≠ some true) ∧
      (executeUpdateCalendar user = .error (.errorResponse "TimeTree not connected" 400) ∨
        executeUpdateCalendar user
          = .ok (.obj [("message", .str "Calendar updated successfully"),
              ("status", .str "success")])) := by
  rcases executeUpdateCalendar_cases user with ⟨hf, h⟩ | ⟨hf, h⟩
  · refine ⟨⟨fun _ hc => ?_, fun _ => h⟩, Or.inl h⟩
    rw [(connectedFlag_eq_true_iff _).mpr hc] at hf
    exact absurd hf (by decide)
  · refine ⟨⟨fun he => ?_, fun hn => ?_⟩, Or.inr h⟩
    · rw [h] at he; cases he
    · exact absurd ((connectedFlag_eq_true_iff _).mp hf) hn

/-- C16, on the code: the user of the test setup has the default `connected: false`
for timeTree; "update my calendar" resolves to updateCalendar, the executor throws
'TimeTree not connected', and `processCommand` ends with 'Failed to process command',
status 500, not with a response of status 200. -/
theorem processCommand_updateCalendar_testUser :
    testUser.integrations.timeTree = some ⟨some false⟩ ∧
      parseCommand "update my calendar" = .ok (.updateCalendar, []) ∧
      executeUpdateCalendar testUser = .error (.errorResponse "TimeTree not connected" 400) ∧
      ∀ fc : FileService,
        processCommand fc "update my calendar" testUser
          = .error (.errorResponse "Failed to process command" 500) :=
  ⟨rfl, rfl, rfl, fun _ => rfl⟩

/-- C17: with source "onedrive", `executeShowFiles` throws
`ErrorResponse('OneDrive not connected', 400)` exactly when the `connected` flag of
the user's microsoft integration is not true (false or absent); otherwise it returns
`{ message: 'OneDrive files retrieved', files: [] }`; in neither case does the result
depend on the file controller.  Every other source is handled as "local" is. -/
theorem executeShowFiles_spec (fc : FileService) (user : User) :
    (executeShowFiles fc [("source", .str "onedrive")] user
          = .error (.errorResponse "OneDrive not connected" 400) ↔
        user.integrations.microsoft.bind Integration.connected ≠ some true) ∧
      (executeShowFiles fc [("source", .str "onedrive")] user
          = .error (.errorResponse "OneDrive not connected" 400) ∨
        executeShowFiles fc [("source", .str "onedrive")] user
          = .ok (.obj [("message", .str "OneDrive files retrieved"), ("files", .arr [])])) ∧
      (∀ fc2 : FileService,
        executeShowFiles fc2 [("source", .str "onedrive")] user
          = executeShowFiles fc [("source", .str "onedrive")] user) ∧
      ∀ source : Value, source ≠ .str "onedrive" →
        executeShowFiles fc [("source", source)] user
          = executeShowFiles fc [("source", .str "local")] user := by
  refine ⟨?_, ?_, ?_, ?_⟩
  · rcases executeShowFiles_onedrive_cases fc user with ⟨hf, h⟩ | ⟨hf, h⟩
    · refine ⟨fun _ hc => ?_, fun _ => h⟩
      rw [(connectedFlag_eq_true_iff _).mpr hc] at hf
      exact absurd hf (by decide)
    · refine ⟨fun he => ?_, fun hn => ?_⟩
      · rw [h] at he; cases he
      · exact absurd ((connectedFlag_eq_true_iff _).mp hf) hn
  · rcases executeShowFiles_onedrive_cases fc user with ⟨_, h⟩ | ⟨_, h⟩
    · exact Or.inl h
    · exact Or.inr h
  · intro fc2
    rcases executeShowFiles_onedrive_cases fc user with ⟨hf, h⟩ | ⟨hf, h⟩ <;>
      rcases executeShowFiles_onedrive_cases fc2 user with ⟨hf2, h2⟩ | ⟨hf2, h2⟩
    · rw [h, h2]
    · rw [hf] at hf2; exact absurd hf2 (by decide)
    · rw [hf] at hf2; exact absurd hf2 (by decide)
    · rw [h, h2]
  · intro source hs
    rw [executeShowFiles_local fc source user hs,
      executeShowFiles_local fc (.str "local") user (by decide)]

/-- C17 at a user connected to microsoft only: "onedrive" gives the OneDrive result,
and the source "dropbox" is handled as "local" is. -/
theorem executeShowFiles_spec_witness :
    executeShowFiles ⟨fun _ _ => .ok .undefined, fun _ => .ok .undefined,
          fun _ _ => .ok .undefined, fun _ => .ok .undefined⟩
        [("source", .str "onedrive")] microsoftOnlyUser
        = .ok (.obj [("message", .str "OneDrive files retrieved"), ("files", .arr [])]) ∧
      executeShowFiles ⟨fun _ _ => .ok .undefined, fun _ => .ok .undefined,
          fun _ _ => .ok .undefined, fun _ => .ok .undefined⟩
        [("source", .str "dropbox")] microsoftOnlyUser
        = executeShowFiles ⟨fun _ _ => .ok .undefined, fun _ => .ok .undefined,
            fun _ _ => .ok .undefined, fun _ => .ok .undefined⟩
          [("source", .str "local")] microsoftOnlyUser :=
  ⟨rfl, (executeShowFiles_spec _ microsoftOnlyUser).2.2.2 (.str "dropbox") (by decide)⟩

/-- C18, on the code: `executeSortFiles` never succeeds.  The module
`file.controller.js` exports an instance, so `new FileController()` throws a
`TypeError` before any file is listed; this holds for every `sortBy` and every user,
and `processCommand` ends with 'Failed to process command', status 500, for "sort my
files by type". -/
theorem executeSortFiles_fails :
    construct fileControllerModule = .error .typeError ∧
      (∀ (fc : FileService) (parameters : Parameters) (user : User),
        executeSortFiles fc parameters user = .error .typeError) ∧
      (∀ (fc : FileService) (user : User),
        executeCommand fc "sortFiles" [("sortBy", .str "type")] user = .error .typeError) ∧
      parseCommand "sort my files by type" = .ok (.sortFiles, [("sortBy", .str "type")]) ∧
      ∀ (fc : FileService) (user : User),
        processCommand fc "sort my files by type" user
          = .error (.errorResponse "Failed to process command" 500) :=
  ⟨rfl, fun _ _ _ => rfl, fun _ _ => rfl, rfl, fun _ _ => rfl⟩

/-- The handler `sortFiles` on a listing that has been read: it throws
`ErrorResponse('Invalid sort parameter', 400)` exactly when `sortBy` is not one of
"type", "date", "size", "name". -/
theorem sortFiles_read_invalid_iff (localeCompare : String → String → Int)
    (files : List FileEntry) (sortBy : Value) :
    FileController.sortFiles localeCompare (.ok files) sortBy
        = .error (.errorResponse "Invalid sort parameter" 400) ↔
      sortBy ∉ [Value.str "type", .str "date", .str "size", .str "name"] := by
  simp only [List.mem_cons, List.mem_singleton, List.not_mem_nil, or_false, not_or]
  unfold FileController.sortFiles
  by_cases h1 : sortBy = .str "type"
  · simp [h1]
  by_cases h2 : sortBy = .str "date"
  · simp [h2]
  by_cases h3 : sortBy = .str "size"
  · simp [h3]
  by_cases h4 : sortBy = .str "name"
  · simp [h4]
  simp [h1, h2, h3, h4]

/-- C19, counterexample: for a user whose storage directory does not exist,
`fs.readdir` rejects with `ENOENT`; `sortFiles` then fails with that system error for
the body `{ sortBy: 'invalid' }`, whose `sortBy` is none of "type", "date", "size",
"name", and not with `ErrorResponse('Invalid sort parameter', 400)`. -/
theorem sortFiles_unreadable_counterexample :
    Value.str "invalid" ∉ [Value.str "type", .str "date", .str "size", .str "name"] ∧
      FileController.sortFiles codePointCompare (.error "ENOENT") (.str "invalid")
        = .error (.systemError "ENOENT") ∧
      FileController.sortFiles codePointCompare (.error "ENOENT") (.str "invalid")
        ≠ .error (.errorResponse "Invalid sort parameter" 400) :=
  ⟨by decide, rfl, error_ne_error (by decide)⟩

/-- C19, amended: the handler `sortFiles` throws
`ErrorResponse('Invalid sort parameter', 400)` exactly when the listing of the user's
storage directory can be read and `sortBy` is not one of "type", "date", "size",
"name"; when the listing cannot be read, it throws the system error of the listing,
whatever `sortBy` is.  When `parseCommand` resolves a command to sortFiles, its
`sortBy` is one of the four, so the handler does not throw the invalid-sort-key
failure for it, whatever the listing is. -/
theorem sortFiles_invalid_iff :
    (∀ (localeCompare : String → String → Int) (listing : Except String (List FileEntry))
        (sortBy : Value),
      FileController.sortFiles localeCompare listing sortBy
          = .error (.errorResponse "Invalid sort parameter" 400) ↔
        (∃ files, listing = .ok files) ∧
          sortBy ∉ [Value.str "type", .str "date", .str "size", .str "name"]) ∧
      (∀ (localeCompare : String → String → Int) (code : String) (sortBy : Value),
        FileController.sortFiles localeCompare (.error code) sortBy
          = .error (.systemError code)) ∧
      ∀ (command : String) (parameters : Parameters),
        parseCommand command = .ok (.sortFiles, parameters) →
        field parameters "sortBy" ∈ [Value.str "type", .str "date", .str "size", .str "name"] ∧
          ∀ (localeCompare : String → String → Int) (listing : Except String (List FileEntry)),
            FileController.sortFiles localeCompare listing (field parameters "sortBy")
              ≠ .error (.errorResponse "Invalid sort parameter" 400) := by
  have key : ∀ (localeCompare : String → String → Int)
      (listing : Except String (List FileEntry)) (sortBy : Value),
      FileController.sortFiles localeCompare listing sortBy
          = .error (.errorResponse "Invalid sort parameter" 400) ↔
        (∃ files, listing = .ok files) ∧
          sortBy ∉ [Value.str "type", .str "date", .str "size", .str "name"] := by
    intro localeCompare listing sortBy
    cases listing with
    | error code =>
      constructor
      · intro h
        exact absurd h (error_ne_error (fun e => Thrown.noConfusion e))
      · rintro ⟨⟨files, hf⟩, _⟩
        cases hf
    | ok files =>
      rw [sortFiles_read_invalid_iff]
      exact ⟨fun h => ⟨⟨files, rfl⟩, h⟩, fun h => h.2⟩
  refine ⟨key, fun _ _ _ => rfl, ?_⟩
  intro command parameters h
  obtain ⟨v, hv, hps⟩ := (parseCommand_ok_shape h).1 rfl
  subst hps
  have hf : field [("sortBy", Value.str v)] "sortBy" = .str v := rfl
  rw [hf]
  have hmem : Value.str v ∈ [Value.str "type", .str "date", .str "size", .str "name"] := by
    simp only [List.mem_cons, List.mem_singleton, List.not_mem_nil, or_false] at hv ⊢
    rcases hv with rfl | rfl | rfl | rfl <;> simp
  exact ⟨hmem, fun localeCompare listing he => ((key localeCompare listing _).mp he).2 hmem⟩

/-- C19, amended, at "sort my files by type": `sortBy` is "type", and the handler does
not throw the invalid-sort-key failure for it, whatever the listing is. -/
theorem sortFiles_invalid_iff_witness :
    parseCommand "sort my files by type" = .ok (.sortFiles, [("sortBy", .str "type")]) ∧
      field [("sortBy", Value.str "type")] "sortBy"
        ∈ [Value.str "type", .str "date", .str "size", .str "name"] ∧
      ∀ (localeCompare : String → String → Int) (listing : Except String (List FileEntry)),
        FileController.sortFiles localeCompare listing (field [("sortBy", .str "type")] "sortBy")
          ≠ .error (.errorResponse "Invalid sort parameter" 400) :=
  ⟨rfl, sortFiles_invalid_iff.2.2 "sort my files by type" [("sortBy", .str "type")] rfl⟩

/-- C20: the intent of every command that `parseCommand` resolves is one of the six
`case` labels of `executeCommand`, and `executeCommand` does not end with
`ErrorResponse('Unsupported command', 400)` for it; `executeCommand` ends with that
failure exactly for the intent names that are not among the six. -/
theorem executeCommand_dispatch_consistent :
    (∀ (command : String) (i : Intent) (parameters : Parameters),
      parseCommand command = .ok (i, parameters) →
      i.name ∈ ["sortFiles", "syncEmails", "updateCalendar", "showFiles", "searchFiles",
          "getStats"] ∧
        ∀ (fc : FileService) (user : User),
          executeCommand fc i.name parameters user
            ≠ .error (.errorResponse "Unsupported command" 400)) ∧
      ∀ (fc : FileService) (intent : String) (parameters : Parameters) (user : User),
        executeCommand fc intent parameters user
            = .error (.errorResponse "Unsupported command" 400) ↔
          intent ∉ ["sortFiles", "syncEmails", "updateCalendar", "showFiles", "searchFiles",
            "getStats"] := by
  refine ⟨?_, ?_⟩
  · intro command i parameters _
    exact ⟨intent_name_mem i, fun fc user =>
      executeCommand_handled_ne_unsupported fc i.name parameters user (intent_name_mem i)⟩
  · intro fc intent parameters user
    constructor
    · intro he hmem
      exact executeCommand_handled_ne_unsupported fc intent parameters user hmem he
    · exact executeCommand_unhandled fc intent parameters user

/-- C20 at "show my stats", which resolves to getStats: the name is one of the six
labels and the unsupported-command branch is not taken. -/
theorem executeCommand_dispatch_consistent_witness :
    parseCommand "show my stats" = .ok (.getStats, []) ∧
      Intent.getStats.name ∈ ["sortFiles", "syncEmails", "updateCalendar", "showFiles",
        "searchFiles", "getStats"] ∧
      ∀ (fc : FileService) (user : User),
        executeCommand fc Intent.getStats.name [] user
          ≠ .error (.errorResponse "Unsupported command" 400) :=
  ⟨rfl, executeCommand_dispatch_consistent.1 "show my stats" .getStats [] rfl⟩

/-! ## Sorting -/

theorem jsSort_perm {α : Type} (compare : α → α → Int) (files : List α) :
    (jsSort compare files).Perm files :=
  List.perm_insertionSort _ files

theorem jsSort_sorted {α : Type} (compare : α → α → Int)
    (htotal : ∀ a b, compare a b ≤ 0 ∨ compare b a ≤ 0)
    (htrans : ∀ a b c, compare a b ≤ 0 → compare b c ≤ 0 → compare a c ≤ 0)
    (files : List α) :
    (jsSort compare files).Sorted (fun a b => compare a b ≤ 0) := by
  haveI : IsTotal α (fun a b => compare a b ≤ 0) := ⟨htotal⟩
  haveI : IsTrans α (fun a b => compare a b ≤ 0) := ⟨htrans⟩
  exact List.sorted_insertionSort _ files

theorem codePointCompare_le_iff (a b : String) : codePointCompare a b ≤ 0 ↔ a ≤ b := by
  unfold codePointCompare
  by_cases h1 : a < b
  · simp [h1, le_of_lt h1]
  · by_cases h2 : a = b
    · simp [h2]
    · have : ¬ a ≤ b := fun hle => h1 (lt_of_le_of_ne hle h2)
      simp [h1, h2, this]

/-- C21: when `localeCompare` is a consistent comparison, the handler `sortFiles`
responds for each of the keys type, date, size and name with a permutation of the
listing that is sorted by the key: by type and by name ascending in the order of
`localeCompare`, by date from the latest, by size from the largest. -/
theorem sortFiles_sorted_perm (localeCompare : String → String → Int)
    (htotal : ∀ a b, localeCompare a b ≤ 0 ∨ localeCompare b a ≤ 0)
    (htrans : ∀ a b c, localeCompare a b ≤ 0 → localeCompare b c ≤ 0 →
      localeCompare a c ≤ 0)
    (files : List FileEntry) :
    (∃ data, FileController.sortFiles localeCompare (.ok files) (.str "type")
          = .ok ⟨200, true, data⟩ ∧ data.Perm files ∧
        data.Sorted (fun a b => localeCompare a.type b.type ≤ 0)) ∧
      (∃ data, FileController.sortFiles localeCompare (.ok files) (.str "date")
          = .ok ⟨200, true, data⟩ ∧ data.Perm files ∧
        data.Sorted (fun a b => a.modifiedDate ≥ b.modifiedDate)) ∧
      (∃ data, FileController.sortFiles localeCompare (.ok files) (.str "size")
          = .ok ⟨200, true, data⟩ ∧ data.Perm files ∧
        data.Sorted (fun a b => a.size ≥ b.size)) ∧
      (∃ data, FileController.sortFiles localeCompare (.ok files) (.str "name")
          = .ok ⟨200, true, data⟩ ∧ data.Perm files ∧
        data.Sorted (fun a b => localeCompare a.name b.name ≤ 0)) := by
  refine ⟨⟨_, rfl, jsSort_perm _ _, ?_⟩, ⟨_, rfl, jsSort_perm _ _, ?_⟩,
    ⟨_, rfl, jsSort_perm _ _, ?_⟩, ⟨_, rfl, jsSort_perm _ _, ?_⟩⟩
  · exact jsSort_sorted (fun a b : FileEntry => localeCompare a.type b.type)
      (fun a b => htotal a.type b.type)
      (fun a b c => htrans a.type b.type c.type) files
  · have h := jsSort_sorted (fun a b : FileEntry => b.modifiedDate - a.modifiedDate)
      (fun a b => by
        show b.modifiedDate - a.modifiedDate ≤ 0 ∨ a.modifiedDate - b.modifiedDate ≤ 0
        omega)
      (fun a b c => by
        show b.modifiedDate - a.modifiedDate ≤ 0 → c.modifiedDate - b.modifiedDate ≤ 0 →
          c.modifiedDate - a.modifiedDate ≤ 0
        omega) files
    exact h.imp (fun {a b} hab => by
      show b.modifiedDate ≤ a.modifiedDate
      have : b.modifiedDate - a.modifiedDate ≤ 0 := hab
      omega)
  · have h := jsSort_sorted (fun a b : FileEntry => (b.size : Int) - (a.size : Int))
      (fun a b => by
        show (b.size : Int) - (a.size : Int) ≤ 0 ∨ (a.size : Int) - (b.size : Int) ≤ 0
        omega)
      (fun a b c => by
        show (b.size : Int) - (a.size : Int) ≤ 0 → (c.size : Int) - (b.size : Int) ≤ 0 →
          (c.size : Int) - (a.size : Int) ≤ 0
        omega) files
    exact h.imp (fun {a b} hab => by
      show b.size ≤ a.size
      have : (b.size : Int) - (a.size : Int) ≤ 0 := hab
      omega)
  · exact jsSort_sorted (fun a b : FileEntry => localeCompare a.name b.name)
      (fun a b => htotal a.name b.name)
      (fun a b c => htrans a.name b.name c.name) files

/-- C21 at the comparison by code points and three sample files. -/
theorem sortFiles_sorted_perm_witness :
    (∃ data, FileController.sortFiles codePointCompare (.ok sampleFiles) (.str "type")
          = .ok ⟨200, true, data⟩ ∧ data.Perm sampleFiles ∧
        data.Sorted (fun a b => codePointCompare a.type b.type ≤ 0)) ∧
      (∃ data, FileController.sortFiles codePointCompare (.ok sampleFiles) (.str "date")
          = .ok ⟨200, true, data⟩ ∧ data.Perm sampleFiles ∧
        data.Sorted (fun a b => a.modifiedDate ≥ b.modifiedDate)) ∧
      (∃ data, FileController.sortFiles codePointCompare (.ok sampleFiles) (.str "size")
          = .ok ⟨200, true, data⟩ ∧ data.Perm sampleFiles ∧
        data.Sorted (fun a b => a.size ≥ b.size)) ∧
      (∃ data, FileController.sortFiles codePointCompare (.ok sampleFiles) (.str "name")
          = .ok ⟨200, true, data⟩ ∧ data.Perm sampleFiles ∧
        data.Sorted (fun a b => codePointCompare a.name b.name ≤ 0)) :=
  sortFiles_sorted_perm codePointCompare
    (fun a b => by
      rw [codePointCompare_le_iff, codePointCompare_le_iff]
      exact le_total a b)
    (fun a b c => by
      rw [codePointCompare_le_iff, codePointCompare_le_iff, codePointCompare_le_iff]
      exact le_trans)
    sampleFiles

/-! ## Search -/

/-- C22, on the code: the callback of `searchFiles` reads `file.originalName`, which
no entry of the listing has, and calls `toLowerCase()` on it; so the handler throws a
`TypeError` for every listing that is not empty, whatever the query, and succeeds
only for the empty listing, with count 0. -/
theorem searchFiles_throws_on_any_file :
    (∀ file : FileEntry, file.toJS.getProp "originalName" = .ok .undefined) ∧
      (∀ (stringify : JSValue → String) (file : FileEntry) (rest : List FileEntry)
          (query : Value),
        FileController.searchFiles stringify (file :: rest) query = .error .typeError) ∧
      (∀ (stringify : JSValue → String) (query : Value),
        FileController.searchFiles stringify [] query = .ok ⟨200, true, 0, []⟩) ∧
      ∀ stringify : JSValue → String,
        FileController.searchFiles stringify
            [⟨"report2023.pdf", "/storage/u/report2023.pdf", 12, "pdf", 1000⟩] (.str "report")
          = .error .typeError :=
  ⟨fun _ => rfl, fun _ _ _ _ => rfl, fun _ _ => rfl, fun _ => rfl⟩

/-! ## Counting accumulators -/

theorem lookup_replaceOwn (acc : List (String × Count)) (k : String) (v : Count)
    (k2 : String) (h : (acc.lookup k).isSome = true) :
    (replaceOwn acc k v).lookup k2 = if k2 = k then some v else acc.lookup k2 := by
  induction acc with
  | nil => simp at h
  | cons e acc ih =>
    obtain ⟨k0, v0⟩ := e
    by_cases h0 : k0 = k
    · subst h0
      by_cases h2 : k2 = k0
      · subst h2; simp [replaceOwn]
      · have hb : (k2 == k0) = false := by simpa using h2
        simp [replaceOwn, List.lookup_cons, hb, h2]
    · have hb0 : (k == k0) = false := by simpa using (fun e : k = k0 => h0 e.symm)
      rw [List.lookup_cons, hb0] at h
      have ih2 := ih h
      by_cases h2 : k2 = k
      · subst h2
        simp [replaceOwn, h0, List.lookup_cons, hb0, ih2]
      · cases hb : k2 == k0 with
        | true => simp [replaceOwn, h0, List.lookup_cons, hb, h2]
        | false => simp [replaceOwn, h0, List.lookup_cons, hb, ih2, h2]

theorem lookup_insertOwn (l1 l2 : List (String × Count)) (k : String) (v : Count)
    (k2 : String) (h : (l1 ++ l2).lookup k = none) :
    (l1 ++ (k, v) :: l2).lookup k2 = if k2 = k then some v else (l1 ++ l2).lookup k2 := by
  induction l1 with
  | nil =>
    by_cases h2 : k2 = k
    · subst h2; simp
    · have hb : (k2 == k) = false := by simpa using h2
      simp [List.lookup_cons, hb, h2]
  | cons e l1 ih =>
    obtain ⟨k0, v0⟩ := e
    rw [List.cons_append, List.lookup_cons] at h
    cases hb0 : k == k0 with
    | true => rw [hb0] at h; simp at h
    | false =>
      rw [hb0] at h
      have ih2 := ih h
      have h0 : k ≠ k0 := by simpa using hb0
      cases hb : k2 == k0 with
      | true =>
        have : k2 = k0 := by simpa using hb
        have h2 : k2 ≠ k := by rw [this]; exact fun e => h0 e.symm
        simp [List.lookup_cons, hb, h2]
      | false => simp [List.lookup_cons, hb, ih2]

theorem lookup_setOwn (acc : List (String × Count)) (k : String) (v : Count) (k2 : String) :
    (setOwn acc k v).lookup k2 = if k2 = k then some v else acc.lookup k2 := by
  unfold setOwn
  cases hl : acc.lookup k with
  | some c =>
    simp only [Option.isSome_some, if_true]
    exact lookup_replaceOwn acc k v k2 (by rw [hl]; rfl)
  | none =>
    simp only [Option.isSome_none, Bool.false_eq_true, if_false]
    cases arrayIndex k with
    | none =>
      have h := lookup_insertOwn acc [] k v k2 (by rw [List.append_nil]; exact hl)
      rw [List.append_nil] at h
      exact h
    | some n =>
      have h := lookup_insertOwn (acc.takeWhile (precedesIndex n))
        (acc.dropWhile (precedesIndex n)) k v k2
        (by rw [List.takeWhile_append_dropWhile]; exact hl)
      rw [List.takeWhile_append_dropWhile] at h
      exact h

/-- Every own property of the accumulator holds a number. -/
theorem increment_counts {acc : List (String × Count)} {k : String}
    (hnum : ∀ k2 c, acc.lookup k2 = some c → ∃ n, c = .num n)
    (hk : k ∉ objectPrototypeKeys) :
    (∀ k2 c, (increment acc k).lookup k2 = some c → ∃ n, c = .num n) ∧
      ∀ k2, countOf (increment acc k) k2 = countOf acc k2 + if k2 = k then 1 else 0 := by
  have hproto : k ≠ "__proto__" := by
    intro h; apply hk; rw [h]; decide
  unfold increment
  cases hl : acc.lookup k with
  | none =>
    simp only [if_neg hproto, if_neg hk]
    refine ⟨?_, ?_⟩
    · intro k2 c hc
      rw [lookup_setOwn] at hc
      by_cases h : k2 = k
      · rw [if_pos h] at hc
        exact ⟨1, (Option.some.inj hc).symm⟩
      · rw [if_neg h] at hc
        exact hnum k2 c hc
    · intro k2
      unfold countOf
      rw [lookup_setOwn]
      by_cases h : k2 = k
      · subst h; simp [hl]
      · simp [h]
  | some c =>
    obtain ⟨n, rfl⟩ := hnum k c hl
    simp only
    refine ⟨?_, ?_⟩
    · intro k2 c hc
      rw [lookup_setOwn] at hc
      by_cases h : k2 = k
      · rw [if_pos h] at hc
        exact ⟨n + 1, (Option.some.inj hc).symm⟩
      · rw [if_neg h] at hc
        exact hnum k2 c hc
    · intro k2
      unfold countOf
      rw [lookup_setOwn]
      by_cases h : k2 = k
      · subst h; simp [hl]
      · simp [h]

theorem foldl_increment_counts (keyOf : FileEntry → String) (files : List FileEntry) :
    ∀ acc : List (String × Count),
      (∀ k2 c, acc.lookup k2 = some c → ∃ n, c = .num n) →
      (∀ file ∈ files, keyOf file ∉ objectPrototypeKeys) →
      ∀ k, countOf (files.foldl (fun acc file => increment acc (keyOf file)) acc) k
        = countOf acc k + (files.filter (fun file => keyOf file = k)).length := by
  induction files with
  | nil => intro acc _ _ k; simp
  | cons file files ih =>
    intro acc hnum hkeys k
    have hk : keyOf file ∉ objectPrototypeKeys := hkeys file (List.mem_cons_self _ _)
    obtain ⟨hnum2, hcount⟩ := increment_counts hnum hk
    rw [List.foldl_cons, ih _ hnum2 (fun f hf => hkeys f (List.mem_cons_of_mem _ hf)) k,
      hcount k]
    rw [List.filter_cons]
    by_cases h : keyOf file = k
    · have h2 : k = keyOf file := h.symm
      rw [if_pos h2, if_pos (by simpa using h), List.length_cons]
      omega
    · have h2 : ¬ k = keyOf file := fun e => h e.symm
      rw [if_neg h2, if_neg (by simpa using h)]
      omega

/-- When no file type is a property name of `Object.prototype`, `byType` holds for
each type the number of files of that type, files without a type being counted under
"unknown". -/
theorem groupByType_counts (files : List FileEntry)
    (h : ∀ file ∈ files,
      (if file.type = "" then "unknown" else file.type) ∉ objectPrototypeKeys)
    (k : String) :
    countOf (groupByType files) k
      = (files.filter
          (fun file => (if file.type = "" then "unknown" else file.type) = k)).length := by
  unfold groupByType
  rw [foldl_increment_counts (fun file => if file.type = "" then "unknown" else file.type)
    files [] (fun k2 c hc => by simp at hc) h k]
  simp [countOf]

/-- C23, on the code: `byType` is an object literal used as a map, so a file type that
is a property name of `Object.prototype` is not counted: for one file
"notes.constructor" the statistics have `totalFiles` 1 and `byType.constructor` equal
to the text of the function `Object` followed by "1", not to 1.  For two pdf files
and one docx file `byType` is `{ pdf: 2, docx: 1 }`, `totalFiles` is 3 and
`totalSize` is the sum of the sizes. -/
theorem getFileStats_inherited_key :
    (∀ isoDate : Int → String,
      (FileController.getFileStats isoDate
          [⟨"notes.constructor", "/storage/u/notes.constructor", 10, "constructor", 0⟩]).data.totalFiles
        = 1 ∧
      (FileController.getFileStats isoDate
          [⟨"notes.constructor", "/storage/u/notes.constructor", 10, "constructor", 0⟩]).data.byType
        = [("constructor", .text "function Object() \x7b [native code] \x7d1")]) ∧
      (∀ isoDate : Int → String,
        (FileController.getFileStats isoDate sampleFiles).data.totalFiles = 3 ∧
        (FileController.getFileStats isoDate sampleFiles).data.totalSize
          = 2048 + 102400 + 102401 ∧
        (FileController.getFileStats isoDate sampleFiles).data.byType
          = [("pdf", .num 2), ("docx", .num 1)]) :=
  ⟨fun _ => ⟨rfl, rfl⟩, fun _ => ⟨rfl, rfl, rfl⟩⟩

theorem findRange_sizeRanges (size : Nat) :
    findRange size sizeRanges = some (sizeBucketSpec size) := by
  unfold sizeRanges sizeBucketSpec
  simp only [findRange]
  norm_num
  split_ifs <;> rfl

theorem sizeBucketSpec_mem (size : Nat) :
    sizeBucketSpec size ∈ ["tiny", "small", "medium", "large", "huge"] := by
  unfold sizeBucketSpec
  split_ifs <;> simp

theorem groupBySize_eq (files : List FileEntry) :
    groupBySize files
      = files.foldl (fun acc file => increment acc (sizeBucketSpec file.size)) [] := by
  unfold groupBySize
  congr 1
  funext acc file
  rw [findRange_sizeRanges]

theorem groupBySize_counts (files : List FileEntry) (bucket : String) :
    countOf (groupBySize files) bucket
      = (files.filter (fun file => sizeBucketSpec file.size = bucket)).length := by
  rw [groupBySize_eq, foldl_increment_counts (fun file => sizeBucketSpec file.size)
    files [] (fun k2 c hc => by simp at hc) ?_ bucket]
  · simp [countOf]
  · intro file _
    show sizeBucketSpec file.size ∉ objectPrototypeKeys
    have := sizeBucketSpec_mem file.size
    simp only [List.mem_cons, List.mem_singleton, List.not_mem_nil, or_false] at this
    rcases this with h | h | h | h | h <;> rw [h] <;> decide

theorem bucket_filters_length (files : List FileEntry) :
    (files.filter (fun file => sizeBucketSpec file.size = "tiny")).length
      + (files.filter (fun file => sizeBucketSpec file.size = "small")).length
      + (files.filter (fun file => sizeBucketSpec file.size = "medium")).length
      + (files.filter (fun file => sizeBucketSpec file.size = "large")).length
      + (files.filter (fun file => sizeBucketSpec file.size = "huge")).length
      = files.length := by
  induction files with
  | nil => rfl
  | cons file files ih =>
    have := sizeBucketSpec_mem file.size
    simp only [List.mem_cons, List.mem_singleton, List.not_mem_nil, or_false] at this
    rcases this with h | h | h | h | h <;>
      (simp only [List.filter_cons, h, List.length_cons]
       simp
       omega)

/-- C27: `groupBySize` counts every file under the one bucket that the inclusive upper
bounds give it (tiny up to 102400 bytes, small up to 1 MB, medium up to 10 MB, large
up to 100 MB, huge above); the five counts add up to the number of files; a file of
102400 bytes is tiny and one of 102401 bytes is small. -/
theorem groupBySize_buckets :
    (∀ size : Nat, findRange size sizeRanges = some (sizeBucketSpec size)) ∧
      (∀ (files : List FileEntry) (bucket : String),
        countOf (groupBySize files) bucket
          = (files.filter (fun file => sizeBucketSpec file.size = bucket)).length) ∧
      (∀ files : List FileEntry,
        countOf (groupBySize files) "tiny" + countOf (groupBySize files) "small"
          + countOf (groupBySize files) "medium" + countOf (groupBySize files) "large"
          + countOf (groupBySize files) "huge" = files.length) ∧
      sizeBucketSpec 102400 = "tiny" ∧ sizeBucketSpec 102401 = "small" ∧
      groupBySize sampleFiles = [("tiny", .num 2), ("small", .num 1)] := by
  refine ⟨findRange_sizeRanges, groupBySize_counts, ?_, by decide, by decide, rfl⟩
  intro files
  simp only [groupBySize_counts]
  exact bucket_filters_length files

/-! ## Subscriptions -/

/-- The middleware `checkSubscription('premium')` rejects, with status 403 and the
message 'This feature requires a premium subscription', every user whose subscription
type is not "premium" and who is not a free user with the trial still running. -/
theorem checkSubscription_premium_rejects (now : Int) (user : Account)
    (hp : user.subscriptionType ≠ "premium")
    (ht : ¬ (user.subscriptionType = "free" ∧ now < user.subscriptionEndDate)) :
    checkSubscription "premium" now user
      = .error (.errorResponse "This feature requires a premium subscription" 403) := by
  unfold checkSubscription
  have h1 : (decide (user.subscriptionType = "free") &&
      decide (now < user.subscriptionEndDate)) = false := by
    rw [Bool.and_eq_false_iff]
    by_cases hf : user.subscriptionType = "free"
    · right
      have : ¬ now < user.subscriptionEndDate := fun hlt => ht ⟨hf, hlt⟩
      simpa using this
    · left
      simpa using hf
  have h2 : (decide (user.subscriptionType = "premium") ||
      decide (user.subscriptionType = "premium")) = false := by
    simpa using hp
  simp only [h1, h2, Bool.not_false, Bool.and_self, if_true]
  rfl

/-- A premium user, and a free user with the trial still running, get past the
subscription test of `checkSubscription('premium')`: what remains is the storage
check. -/
theorem checkSubscription_premium_passes (now : Int) (user : Account)
    (h : user.subscriptionType = "premium" ∨
      (user.subscriptionType = "free" ∧ now < user.subscriptionEndDate)) :
    checkSubscription "premium" now user =
      match storageLimit.lookup user.subscriptionType with
      | some limit =>
        if user.storageUsed ≥ limit then
          .error (.errorResponse "Storage limit reached for your subscription tier" 403)
        else .ok ()
      | none => .ok () := by
  unfold checkSubscription
  have hc : (!(decide (user.subscriptionType = "free") &&
        decide (now < user.subscriptionEndDate)) &&
      !(decide (user.subscriptionType = "premium") ||
        decide (user.subscriptionType = "premium"))) = false := by
    rcases h with h | ⟨h1, h2⟩
    · simp [h]
    · simp [h1, h2]
  simp only [hc, Bool.false_eq_true, if_false]

/-- C24, on the code: `checkSubscription('premium')` is not premium only.  A free user
whose trial is still running is not rejected for the subscription: at time 5, a free
user whose trial ends at time 10 and who stores nothing is let through.  In general a
free user is let through while the trial runs and less than 1 GB is stored, is
rejected with 'Storage limit reached for your subscription tier' while the trial runs
and 1 GB or more is stored, and is rejected with 'This feature requires a premium
subscription' once the trial has ended.  The rejection with status 403 and the message
naming the premium subscription is given exactly to the users whose subscription type
is not "premium" and who are not free users on a running trial. -/
theorem checkSubscription_premium_admits_trial :
    checkSubscription "premium" 5 ⟨"u1", "free", 10, none, 0⟩ = .ok () ∧
      (∀ (now : Int) (id : String) (endDate : Int) (stripeSubscriptionId : Option String)
          (storageUsed : Nat),
        checkSubscription "premium" now ⟨id, "free", endDate, stripeSubscriptionId, storageUsed⟩
          = if now < endDate then
              if storageUsed ≥ 1 * 1024 * 1024 * 1024 then
                .error (.errorResponse "Storage limit reached for your subscription tier" 403)
              else .ok ()
            else .error (.errorResponse "This feature requires a premium subscription" 403)) ∧
      ∀ (now : Int) (user : Account),
        checkSubscription "premium" now user
            = .error (.errorResponse "This feature requires a premium subscription" 403) ↔
          user.subscriptionType ≠ "premium" ∧
            ¬ (user.subscriptionType = "free" ∧ now < user.subscriptionEndDate) := by
  refine ⟨rfl, ?_, ?_⟩
  · intro now id endDate stripeSubscriptionId storageUsed
    by_cases ht : now < endDate
    · rw [checkSubscription_premium_passes now _ (Or.inr ⟨rfl, ht⟩), if_pos ht]
      rfl
    · rw [checkSubscription_premium_rejects now _
        (show ("free" : String) ≠ "premium" by decide) (fun h => ht h.2), if_neg ht]
  · intro now user
    constructor
    · intro he
      by_contra hn
      have hpass : user.subscriptionType = "premium" ∨
          (user.subscriptionType = "free" ∧ now < user.subscriptionEndDate) := by
        by_cases hp : user.subscriptionType = "premium"
        · exact Or.inl hp
        · right
          by_contra ht
          exact hn ⟨hp, ht⟩
      rw [checkSubscription_premium_passes now user hpass] at he
      split at he
      · split at he
        · exact error_ne_error (by decide) he
        · cases he
      · cases he
    · rintro ⟨hp, ht⟩
      exact checkSubscription_premium_rejects now user hp ht

/-- C26, on the code: `updateSubscription` has no check of the storage in use.  It
never ends with status 400; for a premium user with 50 GB in use who asks for "basic"
(limit 10 GB), when Stripe and the database answer, it responds with status 200 and
stores the subscription type "basic".  When the user document has no
`stripeSubscriptionId`, as every document read from the database (the schema of
`user.model.js` has no such path), it ends with 'No active subscription found', status
404, for the same user and request, whatever Stripe and the database do. -/
theorem updateSubscription_no_storage_check :
    (∀ (stripeSucceeds saveSucceeds : Bool) (user : Account) (planId message : String),
      (updateSubscription stripeSucceeds saveSucceeds user planId).1
        ≠ .error (.errorResponse message 400)) ∧
      (50 * 1024 * 1024 * 1024 > 10 * 1024 * 1024 * 1024 ∧
        storageLimit.lookup "basic" = some (10 * 1024 * 1024 * 1024)) ∧
      updateSubscription true true
          ⟨"u3", "premium", 0, some "sub_test_123", 50 * 1024 * 1024 * 1024⟩ "basic"
        = (.ok ⟨200, true, "Subscription updated successfully"⟩,
            ⟨"u3", "basic", 0, some "sub_test_123", 50 * 1024 * 1024 * 1024⟩) ∧
      ∀ (stripeSucceeds saveSucceeds : Bool),
        updateSubscription stripeSucceeds saveSucceeds
            ⟨"u3", "premium", 0, none, 50 * 1024 * 1024 * 1024⟩ "basic"
          = (.error (.errorResponse "No active subscription found" 404),
              ⟨"u3", "premium", 0, none, 50 * 1024 * 1024 * 1024⟩) := by
  refine ⟨?_, ⟨by decide, rfl⟩, rfl, fun _ _ => rfl⟩
  intro stripeSucceeds saveSucceeds user planId message
  unfold updateSubscription
  split
  · exact error_ne_error (by simp)
  · split
    · intro h; cases h
    · exact error_ne_error (by simp)

/-! ## The password rule -/

/-- C29, on the code: the pattern also requires the first character to be a letter, a
digit or one of `@$!%*?&`.  "#Abcdef1!" has nine characters, among them an upper-case
letter, a lower-case letter, a digit and the special character `!`, and is rejected;
"A#bcdef1!", which has the same characters in another order, is accepted. -/
theorem validPassword_first_character :
    validPassword "#Abcdef1!" = false ∧
      8 ≤ "#Abcdef1!".data.length ∧
      (∃ c ∈ "#Abcdef1!".data, isUpperLetter c = true) ∧
      (∃ c ∈ "#Abcdef1!".data, isLowerLetter c = true) ∧
      (∃ c ∈ "#Abcdef1!".data, isDigit c = true) ∧
      (∃ c ∈ "#Abcdef1!".data, isSpecial c = true) ∧
      validPassword "A#bcdef1!" = true ∧
      (∀ password : String, validPassword password = false ∨
        ∃ c rest, password.data = c :: rest ∧ isAllowed c = true) := by
  refine ⟨by decide, by decide, ⟨'A', by decide, by decide⟩, ⟨'b', by decide, by decide⟩,
    ⟨'1', by decide, by decide⟩, ⟨'!', by decide, by decide⟩, by decide, ?_⟩
  intro password
  cases h : validPassword password with
  | false => exact Or.inl rfl
  | true =>
    right
    unfold validPassword passwordPattern at h
    cases hd : password.data with
    | nil => rw [hd] at h; simp at h
    | cons c rest =>
      rw [hd] at h
      simp only [Bool.and_eq_true] at h
      exact ⟨c, rest, rfl, h.2.2⟩

/-! ## The rate limiter -/

theorem rateLimiter_other (requests minutes : Nat) (rateLimit : RateMap) (u v : String)
    (now : Int) (h : v ≠ u) :
    (rateLimiter requests minutes rateLimit u now).1 v = rateLimit v := by
  unfold rateLimiter
  cases rateLimit u with
  | none => simp [RateMap.set, h]
  | some recorded =>
    simp only
    split <;> simp [RateMap.set, h]

theorem outcomesOf_cons_self (u : String) (o : Except Thrown Unit)
    (served : List (String × Except Thrown Unit)) :
    outcomesOf u ((u, o) :: served) = o :: outcomesOf u served := by
  simp [outcomesOf, List.filter_cons]

theorem outcomesOf_cons_other (u v : String) (o : Except Thrown Unit)
    (served : List (String × Except Thrown Unit)) (h : v ≠ u) :
    outcomesOf u ((v, o) :: served) = outcomesOf u served := by
  simp [outcomesOf, List.filter_cons, h]

theorem filter_window_eq (l : List Int) (t0 t : Int) (w : Nat)
    (hl : ∀ x ∈ l, t0 ≤ x ∧ x < t0 + (w : Int)) (ht : t < t0 + (w : Int)) :
    l.filter (fun time => time > t - (w : Int)) = l := by
  apply List.filter_eq_self.mpr
  intro x hx
  have := hl x hx
  simp only [gt_iff_lt, decide_eq_true_eq]
  omega

theorem outcomesOf_serve_recorded (requests minutes : Nat) (u : String) (t0 : Int)
    (events : List (String × Int)) :
    ∀ (rateLimit : RateMap) (l : List Int), rateLimit u = some l →
      (∀ x ∈ l, t0 ≤ x ∧ x < t0 + ((minutes * 60 * 1000 : Nat) : Int)) →
      (∀ e ∈ events, e.1 = u →
        t0 ≤ e.2 ∧ e.2 < t0 + ((minutes * 60 * 1000 : Nat) : Int)) →
      outcomesOf u (serve requests minutes rateLimit events)
        = List.replicate
            (min (requests - l.length) (events.filter (fun e => e.1 = u)).length) (.ok ())
          ++ List.replicate
            ((events.filter (fun e => e.1 = u)).length - (requests - l.length))
            (.error (.errorResponse
              ("Too many requests. Please try again in " ++ toString minutes ++ " minutes")
              429)) := by
  induction events with
  | nil => intro rateLimit l _ _ _; simp [serve, outcomesOf]
  | cons e events ih =>
    intro rateLimit l hl hwin hspan
    obtain ⟨v, t⟩ := e
    have hrest : ∀ e ∈ events, e.1 = u →
        t0 ≤ e.2 ∧ e.2 < t0 + ((minutes * 60 * 1000 : Nat) : Int) :=
      fun e he => hspan e (List.mem_cons_of_mem _ he)
    by_cases hv : v = u
    · subst hv
      have ht := hspan (v, t) (List.mem_cons_self _ _) rfl
      have hkept := filter_window_eq l t0 t _ hwin ht.2
      have hcount : ((v, t) :: events).filter (fun e => e.1 = v)
          = (v, t) :: events.filter (fun e => e.1 = v) := by
        simp [List.filter_cons]
      rw [hcount, List.length_cons]
      by_cases hfull : l.length ≥ requests
      · have hstep : rateLimiter requests minutes rateLimit v t
            = (rateLimit.set v l, .error (.errorResponse
                ("Too many requests. Please try again in " ++ toString minutes ++ " minutes")
                429)) := by
          unfold rateLimiter
          simp only [hl, hkept, if_pos hfull]
        simp only [serve, hstep, outcomesOf_cons_self]
        rw [ih (rateLimit.set v l) l (by simp [RateMap.set]) hwin hrest]
        have h0 : requests - l.length = 0 := by omega
        simp [h0, List.replicate_succ]
      · have hstep : rateLimiter requests minutes rateLimit v t
            = (rateLimit.set v (l ++ [t]), .ok ()) := by
          unfold rateLimiter
          simp only [hl, hkept, if_neg hfull]
        simp only [serve, hstep, outcomesOf_cons_self]
        rw [ih (rateLimit.set v (l ++ [t])) (l ++ [t]) (by simp [RateMap.set])
          (by
            intro x hx
            rcases List.mem_append.mp hx with hx | hx
            · exact hwin x hx
            · rw [List.mem_singleton.mp hx]; exact ht)
          hrest]
        have h1 : min (requests - l.length) ((events.filter (fun e => e.1 = v)).length + 1)
            = min (requests - (l ++ [t]).length) (events.filter (fun e => e.1 = v)).length
              + 1 := by
          simp only [List.length_append, List.length_singleton]
          omega
        have h2 : (events.filter (fun e => e.1 = v)).length + 1 - (requests - l.length)
            = (events.filter (fun e => e.1 = v)).length
              - (requests - (l ++ [t]).length) := by
          simp only [List.length_append, List.length_singleton]
          omega
        rw [h1, h2, List.replicate_succ, List.cons_append]
    · have hcount : ((v, t) :: events).filter (fun e => e.1 = u)
          = events.filter (fun e => e.1 = u) := by
        simp [List.filter_cons, hv]
      rw [hcount]
      simp only [serve, outcomesOf_cons_other _ _ _ _ hv]
      exact ih _ l (by rw [rateLimiter_other _ _ _ _ _ _ (Ne.symm hv), hl]) hwin hrest

theorem outcomesOf_serve_fresh (requests minutes : Nat) (hN : 1 ≤ requests) (u : String)
    (t0 : Int) (events : List (String × Int)) :
    ∀ rateLimit : RateMap, rateLimit u = none →
      (∀ e ∈ events, e.1 = u →
        t0 ≤ e.2 ∧ e.2 < t0 + ((minutes * 60 * 1000 : Nat) : Int)) →
      outcomesOf u (serve requests minutes rateLimit events)
        = List.replicate (min requests (events.filter (fun e => e.1 = u)).length) (.ok ())
          ++ List.replicate ((events.filter (fun e => e.1 = u)).length - requests)
            (.error (.errorResponse
              ("Too many requests. Please try again in " ++ toString minutes ++ " minutes")
              429)) := by
  induction events with
  | nil => intro rateLimit _ _; simp [serve, outcomesOf]
  | cons e events ih =>
    intro rateLimit hnone hspan
    obtain ⟨v, t⟩ := e
    have hrest : ∀ e ∈ events, e.1 = u →
        t0 ≤ e.2 ∧ e.2 < t0 + ((minutes * 60 * 1000 : Nat) : Int) :=
      fun e he => hspan e (List.mem_cons_of_mem _ he)
    by_cases hv : v = u
    · subst hv
      have ht := hspan (v, t) (List.mem_cons_self _ _) rfl
      have hcount : ((v, t) :: events).filter (fun e => e.1 = v)
          = (v, t) :: events.filter (fun e => e.1 = v) := by
        simp [List.filter_cons]
      rw [hcount, List.length_cons]
      have hstep : rateLimiter requests minutes rateLimit v t
          = (rateLimit.set v [t], .ok ()) := by
        unfold rateLimiter
        simp only [hnone]
      simp only [serve, hstep, outcomesOf_cons_self]
      rw [outcomesOf_serve_recorded requests minutes v t0 events (rateLimit.set v [t]) [t]
        (by simp [RateMap.set])
        (by intro x hx; rw [List.mem_singleton.mp hx]; exact ht) hrest]
      have h1 : min requests ((events.filter (fun e => e.1 = v)).length + 1)
          = min (requests - [t].length) (events.filter (fun e => e.1 = v)).length + 1 := by
        simp only [List.length_singleton]
        omega
      have h2 : (events.filter (fun e => e.1 = v)).length + 1 - requests
          = (events.filter (fun e => e.1 = v)).length - (requests - [t].length) := by
        simp only [List.length_singleton]
        omega
      rw [h1, h2, List.replicate_succ, List.cons_append]
    · have hcount : ((v, t) :: events).filter (fun e => e.1 = u)
          = events.filter (fun e => e.1 = u) := by
        simp [List.filter_cons, hv]
      rw [hcount]
      simp only [serve, outcomesOf_cons_other _ _ _ _ hv]
      exact ih _ (by rw [rateLimiter_other _ _ _ _ _ _ (Ne.symm hv), hnone]) hrest

/-- C25: for `rateLimiter(requests, minutes)` with `requests ≥ 1`, starting with an
empty map, and a user whose requests all have their time in a span shorter than
`minutes` minutes, the outcomes of that user's requests are: the first `requests` of
them admitted, and every later one rejected with status 429 and the message 'Too many
requests. Please try again in <minutes> minutes' — whatever requests other users make
in between. -/
theorem rateLimiter_admits_first (requests minutes : Nat) (hN : 1 ≤ requests)
    (userId : String) (t0 : Int) (events : List (String × Int))
    (hspan : ∀ e ∈ events, e.1 = userId →
      t0 ≤ e.2 ∧ e.2 < t0 + ((minutes * 60 * 1000 : Nat) : Int)) :
    outcomesOf userId (serve requests minutes (fun _ => none) events)
      = List.replicate (min requests (events.filter (fun e => e.1 = userId)).length)
          (.ok ())
        ++ List.replicate ((events.filter (fun e => e.1 = userId)).length - requests)
          (.error (.errorResponse
            ("Too many requests. Please try again in " ++ toString minutes ++ " minutes")
            429)) :=
  outcomesOf_serve_fresh requests minutes hN userId t0 events (fun _ => none) rfl hspan

/-- C25 at `rateLimiter(100, 60)` and 101 requests of one user at the same time: the
first 100 are admitted and the 101st is rejected with status 429. -/
theorem rateLimiter_admits_first_witness :
    outcomesOf "u1" (serve 100 60 (fun _ => none) (List.replicate 101 ("u1", 0)))
      = List.replicate 100 (.ok ())
        ++ [.error (.errorResponse "Too many requests. Please try again in 60 minutes" 429)] := by
  have h := rateLimiter_admits_first 100 60 (by decide) "u1" 0 (List.replicate 101 ("u1", 0))
    (by
      intro e he _
      rw [List.eq_of_mem_replicate he]
      decide)
  have hc : ((List.replicate 101 ("u1", (0 : Int))).filter (fun e => e.1 = "u1")).length
      = 101 := by
    rw [List.filter_eq_self.mpr (by
      intro e he
      rw [List.eq_of_mem_replicate he]
      decide)]
    simp
  rw [hc] at h
  exact h

/-- C28, on the code: the route passes 60 as `minutes`, so the window of the limiter on
`POST /api/ai/command` is 60 minutes, not one minute: a user who made 100 requests at
time 0 is still rejected 61 seconds later, with a message that says 60 minutes. -/
theorem rateLimiter_command_window :
    outcomesOf "u1"
        (serve 100 60 (fun _ => none) (List.replicate 100 ("u1", 0) ++ [("u1", 61000)]))
      = List.replicate 100 (.ok ())
        ++ [.error (.errorResponse "Too many requests. Please try again in 60 minutes" 429)] := by
  have h := outcomesOf_serve_fresh 100 60 (by decide) "u1" 0
    (List.replicate 100 ("u1", 0) ++ [("u1", 61000)]) (fun _ => none) rfl
    (by
      intro e he _
      rcases List.mem_append.mp he with he | he
      · rw [List.eq_of_mem_replicate he]
        decide
      · rw [List.mem_singleton.mp he]
        decide)
  have hc : ((List.replicate 100 ("u1", (0 : Int)) ++ [("u1", 61000)]).filter
      (fun e : String × Int => e.1 = "u1")).length = 101 := by
    rw [List.filter_eq_self.mpr (by
      intro e he
      rcases List.mem_append.mp he with he | he
      · rw [List.eq_of_mem_replicate he]
        decide
      · rw [List.mem_singleton.mp he]
        decide)]
    simp
  rw [hc] at h
  exact h

/-! ## Text around a phrase -/

theorem litMatch_append {w s rest : List Char} (y : List Char)
    (h : litMatch w s = some rest) : litMatch w (s ++ y) = some (rest ++ y) := by
  induction w generalizing s with
  | nil =>
    simp only [litMatch, Option.some.injEq] at h
    simp [litMatch, h]
  | cons c w ih =>
    cases s with
    | nil => simp [litMatch] at h
    | cons ch s =>
      by_cases hc : canonicalize ch = canonicalize c
      · simp only [litMatch, hc, if_true] at h
        simp only [List.cons_append, litMatch, hc, if_true]
        exact ih h
      · simp [litMatch, hc] at h

theorem anyPlusRests_append {s rest : List Char} (y : List Char)
    (h : rest ∈ anyPlusRests s) : rest ++ y ∈ anyPlusRests (s ++ y) := by
  induction s with
  | nil => simp [anyPlusRests] at h
  | cons c s ih =>
    cases hc : isLineTerminator c with
    | true => simp [anyPlusRests, hc] at h
    | false =>
      simp only [anyPlusRests, hc, Bool.false_eq_true, if_false, List.mem_append,
        List.mem_singleton] at h
      simp only [List.cons_append, anyPlusRests, hc, Bool.false_eq_true, if_false,
        List.mem_append, List.mem_singleton]
      rcases h with h | h
      · exact Or.inl (ih h)
      · exact Or.inr (by rw [h]; rfl)

theorem matchAt_append (y : List Char) (r : Re) : ∀ {s : List Char} {caps : Caps}
    {rest : List Char} {caps2 : Caps}, (rest, caps2) ∈ r.matchAt s caps →
    (rest ++ y, caps2) ∈ r.matchAt (s ++ y) caps := by
  induction r with
  | lit w =>
    intro s caps rest caps2 h
    cases hl : litMatch w s with
    | none => simp [Re.matchAt, hl] at h
    | some t =>
      simp only [Re.matchAt, hl, List.mem_singleton, Prod.mk.injEq] at h
      obtain ⟨rfl, rfl⟩ := h
      simp [Re.matchAt, litMatch_append y hl]
  | anyPlus =>
    intro s caps rest caps2 h
    simp only [Re.matchAt, List.mem_map, Prod.mk.injEq] at h
    obtain ⟨t, ht, rfl, rfl⟩ := h
    simp only [Re.matchAt, List.mem_map]
    exact ⟨t ++ y, anyPlusRests_append y ht, rfl⟩
  | seq a b iha ihb =>
    intro s caps rest caps2 h
    simp only [Re.matchAt, List.mem_flatMap] at h
    obtain ⟨x, hx, hb⟩ := h
    simp only [Re.matchAt, List.mem_flatMap]
    exact ⟨(x.1 ++ y, x.2), iha (show (x.1, x.2) ∈ a.matchAt s caps from hx), ihb hb⟩
  | alt a b iha ihb =>
    intro s caps rest caps2 h
    simp only [Re.matchAt, List.mem_append] at h
    simp only [Re.matchAt, List.mem_append]
    exact h.imp (fun h => iha h) (fun h => ihb h)
  | opt a iha =>
    intro s caps rest caps2 h
    simp only [Re.matchAt, List.mem_append, List.mem_singleton, Prod.mk.injEq] at h
    simp only [Re.matchAt, List.mem_append, List.mem_singleton, Prod.mk.injEq]
    rcases h with h | ⟨rfl, rfl⟩
    · exact Or.inl (iha h)
    · exact Or.inr ⟨rfl, rfl⟩
  | group k a iha =>
    intro s caps rest caps2 h
    simp only [Re.matchAt, List.mem_map, Prod.mk.injEq] at h
    obtain ⟨x, hx, rfl, rfl⟩ := h
    have hx2 : (x.1, x.2) ∈ a.matchAt s caps := hx
    obtain ⟨⟨v, hv, _⟩, _⟩ := matchAt_sound a hx2
    simp only [Re.matchAt, List.mem_map, Prod.mk.injEq]
    refine ⟨(x.1 ++ y, x.2), iha hx2, rfl, ?_⟩
    have e1 : List.take (s.length - x.1.length) s = v := by
      rw [hv]; simp
    have e2 : List.take ((s ++ y).length - (x.1 ++ y).length) (s ++ y) = v := by
      rw [hv]
      have : (v ++ x.1 ++ y).length - (x.1 ++ y).length = v.length := by
        simp only [List.length_append]; omega
      rw [this, List.append_assoc, List.take_left]
    show (k, List.take ((s ++ y).length - (x.1 ++ y).length) (s ++ y)) :: x.2
      = (k, List.take (s.length - x.1.length) s) :: x.2
    rw [e1, e2]

theorem exec_ne_none_of_matchAt {r : Re} {t : List Char} {x : List Char × Caps}
    (h : x ∈ r.matchAt t []) : ∀ pre : List Char, r.exec (pre ++ t) ≠ none := by
  have base : r.exec t ≠ none := by
    cases t with
    | nil =>
      cases hm : r.matchAt [] [] with
      | nil => rw [hm] at h; simp at h
      | cons z zs => simp [Re.exec, hm]
    | cons ch t =>
      cases hm : r.matchAt (ch :: t) [] with
      | nil => rw [hm] at h; simp at h
      | cons z zs => simp [Re.exec, hm]
  intro pre
  induction pre with
  | nil => exact base
  | cons c pre ih =>
    cases hm : r.matchAt (c :: (pre ++ t)) [] with
    | nil => simpa [Re.exec, hm] using ih
    | cons z zs => simp [Re.exec, hm]

theorem exec_eq_some_split {r : Re} {s : List Char} {m : Caps} (h : r.exec s = some m) :
    ∃ pre t rest, s = pre ++ t ∧ (rest, m) ∈ r.matchAt t [] := by
  induction s with
  | nil =>
    simp only [Re.exec, Option.map_eq_some'] at h
    obtain ⟨x, hx, rfl⟩ := h
    exact ⟨[], [], x.1, rfl, List.mem_of_mem_head? hx⟩
  | cons ch t ih =>
    cases hm : r.matchAt (ch :: t) [] with
    | nil =>
      simp only [Re.exec, hm] at h
      obtain ⟨pre, t2, rest, hs, hmem⟩ := ih h
      exact ⟨ch :: pre, t2, rest, by rw [hs]; rfl, hmem⟩
    | cons x xs =>
      simp only [Re.exec, hm, Option.some.injEq] at h
      subst h
      exact ⟨[], ch :: t, x.1, rfl, by rw [hm]; exact List.mem_cons_self _ _⟩

theorem test_append {r : Re} {c : List Char} (x y : List Char) (h : r.test c = true) :
    r.test (x ++ c ++ y) = true := by
  obtain ⟨m, hm⟩ := (test_eq_true_iff _ _).mp h
  obtain ⟨pre, t, rest, hs, hmem⟩ := exec_eq_some_split hm
  have h2 := exec_ne_none_of_matchAt (matchAt_append y r hmem) (x ++ pre)
  have e : x ++ c ++ y = (x ++ pre) ++ (t ++ y) := by
    rw [hs]; simp [List.append_assoc]
  rw [e]
  unfold Re.test
  cases hx : r.exec ((x ++ pre) ++ (t ++ y)) with
  | none => exact absurd hx h2
  | some m2 => rfl

theorem parseCommand_of_some_match {command : String} {i : Intent} {config : CommandConfig}
    {p : Re} (hi : (i, config) ∈ commandPatterns) (hp : p ∈ config.patterns)
    (hm : p.test command.data = true) :
    ∃ j qs, parseCommand command = .ok (j, qs) ∧ j.rank ≤ i.rank := by
  have hne : p.exec command.data ≠ none := by
    obtain ⟨m, hm2⟩ := (test_eq_true_iff _ _).mp hm
    simp [hm2]
  cases hr : resolve commandPatterns command.data with
  | none =>
    have h1 := (resolve_eq_none_iff _ _).mp hr (i, config) hi
    exact absurd ((firstMatch_eq_none_iff _ _).mp h1 p hp) hne
  | some x =>
    obtain ⟨j, r⟩ := x
    obtain ⟨⟨config2, m, hmem, hfm, hps⟩, hearlier⟩ :=
      resolve_eq_some commandPatterns_rankSorted hr
    obtain ⟨q, hq, hqm⟩ := firstMatch_eq_some hfm
    obtain ⟨qs, hqs, _⟩ := entry_shape hmem hq hqm
    refine ⟨j, qs, ?_, ?_⟩
    · rw [parseCommand_eq_ok_iff, hr, hps, hqs]
    · by_contra hlt
      have h1 := hearlier (i, config) hi (Nat.lt_of_not_le hlt)
      exact absurd ((firstMatch_eq_none_iff _ _).mp h1 p hp) hne

/-! ## Phrases inside a longer command -/

/-- A pattern of the intent of a resolved command matches the command with any text
before and after it. -/
theorem test_append_of_ok {c : String} {i : Intent} {ps : Parameters}
    (h : parseCommand c = .ok (i, ps)) (x y : String) :
    ∃ config p, (i, config) ∈ commandPatterns ∧ p ∈ config.patterns ∧
      p.test (x ++ c ++ y).data = true := by
  have hr := (parseCommand_eq_ok_iff c i ps).mp h
  obtain ⟨⟨config, m, hmem, hfm, _⟩, _⟩ := resolve_eq_some commandPatterns_rankSorted hr
  obtain ⟨p, hp, hm⟩ := firstMatch_eq_some hfm
  have ht : p.test c.data = true := (test_eq_true_iff _ _).mpr ⟨m, hm⟩
  refine ⟨config, p, hmem, hp, ?_⟩
  rw [String.data_append, String.data_append]
  exact test_append x.data y.data ht

/-- C7, counterexample: "sort my files by name and update my calendar" contains the
phrase "update my calendar" and no pattern of syncEmails matches it (it contains no
email phrase), yet `parseCommand` returns sortFiles with `{ sortBy: 'name' }`. -/
theorem parseCommand_updateCalendar_counterexample :
    "sort my files by name and update my calendar"
        = "sort my files by name and " ++ "update my calendar" ++ "" ∧
      asciiLower "update my calendar" = "update" ++ " " ++ "my " ++ "calendar" ∧
      (∀ p ∈ syncEmailsConfig.patterns,
        p.test "sort my files by name and update my calendar".data = false) ∧
      parseCommand "sort my files by name and update my calendar"
        = .ok (.sortFiles, [("sortBy", .str "name")]) :=
  ⟨by decide, by decide, by decide, rfl⟩

/-- C7, amended: a command that contains a phrase reading, up to the case of its ASCII
letters, "update|sync [my ]calendar", and that is matched by no pattern of syncEmails
(it contains no email phrase) and by no pattern of sortFiles (it contains no
sort-files phrase), resolves to updateCalendar with the empty parameter record. -/
theorem parseCommand_updateCalendar_contained (command x phrase y verb my : String)
    (hc : command = x ++ phrase ++ y)
    (hverb : verb ∈ ["update", "sync"]) (hmy : my ∈ ["my ", ""])
    (hphrase : asciiLower phrase = verb ++ " " ++ my ++ "calendar")
    (hemail : ∀ p ∈ syncEmailsConfig.patterns, p.test command.data = false)
    (hsort : ∀ p ∈ sortFilesConfig.patterns, p.test command.data = false) :
    parseCommand command = .ok (.updateCalendar, []) := by
  subst hc
  have hexact := (parseCommand_updateCalendar_exact verb my phrase hverb hmy hphrase).1
  obtain ⟨config, p, hmem, hp, ht⟩ := test_append_of_ok hexact x y
  obtain ⟨ps, hps⟩ := parseCommand_of_first_match hmem hp ht (by
    intro i config2 q hi hlt hq
    simp only [commandPatterns, List.mem_cons, List.mem_singleton, List.not_mem_nil,
      or_false, Prod.mk.injEq] at hi
    rcases hi with ⟨rfl, rfl⟩ | ⟨rfl, rfl⟩ | ⟨rfl, rfl⟩ | ⟨rfl, rfl⟩ | ⟨rfl, rfl⟩ | ⟨rfl, rfl⟩
    · exact hsort q hq
    · exact hemail q hq
    all_goals exact absurd hlt (by decide))
  rw [hps, (parseCommand_ok_shape hps).2.2.1 rfl]

/-- C7, amended, at "update my calendar" itself and at "Please Update My Calendar
now", which has text before and after the phrase: both resolve to updateCalendar
with `{}`. -/
theorem parseCommand_updateCalendar_contained_witness :
    parseCommand "update my calendar" = .ok (.updateCalendar, []) ∧
      parseCommand "Please Update My Calendar now" = .ok (.updateCalendar, []) :=
  ⟨parseCommand_updateCalendar_contained "update my calendar" "" "update my calendar" ""
      "update" "my " (by decide) (by simp) (by simp) (by decide) (by decide) (by decide),
    parseCommand_updateCalendar_contained "Please Update My Calendar now" "Please "
      "Update My Calendar" " now" "update" "my " (by decide) (by simp) (by simp)
      (by decide) (by decide) (by decide)⟩

theorem toLowerCase_append (a b : List Char) :
    toLowerCase (a ++ b) = toLowerCase a ++ toLowerCase b := by
  simp [toLowerCase]

theorem mem_matchAt_lit {w s : List Char} {caps : Caps} {x : List Char × Caps}
    (h : x ∈ (Re.lit w).matchAt s caps) :
    x.2 = caps ∧ ∃ v, s = v ++ x.1 ∧ toLowerCase v = toLowerCase w := by
  cases hl : litMatch w s with
  | none => simp [Re.matchAt, hl] at h
  | some t =>
    simp only [Re.matchAt, hl, List.mem_singleton] at h
    subst h
    obtain ⟨v, hv, hm⟩ := litMatch_eq_some hl
    exact ⟨rfl, v, hv, toLowerCase_eq_of_canonicalize_eq hm⟩

/-- A match of a pattern `verb (?:my )?(onedrive )?files`: the text it consumes
reads, up to letter case, as the verb, the optional "my ", the optional "onedrive "
and "files", and group 1 is bound to the text read as "onedrive " exactly when there
is one. -/
theorem showFiles_matchAt {verb t rest : List Char} {m : Caps}
    (h : (rest, m) ∈ (Re.seq (.lit verb) (.seq myOpt
      (.seq (.opt (.group 1 (.lit "onedrive ".data))) (.lit "files".data)))).matchAt t []) :
    ∃ v1 v2 v3 v4, t = v1 ++ (v2 ++ (v3 ++ (v4 ++ rest))) ∧
      toLowerCase v1 = toLowerCase verb ∧
      (v2 = [] ∨ toLowerCase v2 = "my ".data) ∧
      toLowerCase v4 = "files".data ∧
      ((v3 = [] ∧ m = []) ∨ (toLowerCase v3 = "onedrive ".data ∧ m = [(1, v3)])) := by
  simp only [Re.matchAt, myOpt, List.mem_flatMap] at h
  obtain ⟨x1, hx1, x2, hx2, x3, hx3, hx4⟩ := h
  obtain ⟨hc1, v1, ht1, hl1⟩ := mem_matchAt_lit (show x1 ∈ (Re.lit verb).matchAt t [] from hx1)
  obtain ⟨hc4, v4, ht4, hl4⟩ :=
    mem_matchAt_lit (show (rest, m) ∈ (Re.lit "files".data).matchAt x3.1 x3.2 from hx4)
  simp only at hc4 ht4
  have h2 : x2.2 = [] ∧ ∃ v2, x1.1 = v2 ++ x2.1 ∧ (v2 = [] ∨ toLowerCase v2 = "my ".data) := by
    rcases List.mem_append.mp hx2 with h | h
    · obtain ⟨hc, v2, ht, hl⟩ :=
        mem_matchAt_lit (show x2 ∈ (Re.lit "my ".data).matchAt x1.1 x1.2 from h)
      exact ⟨by rw [hc, hc1], v2, ht, Or.inr hl⟩
    · simp only [List.mem_singleton] at h
      subst h
      exact ⟨hc1, [], rfl, Or.inl rfl⟩
  obtain ⟨hc2, v2, ht2, hl2⟩ := h2
  have h3 : ∃ v3, x2.1 = v3 ++ x3.1 ∧
      ((v3 = [] ∧ x3.2 = []) ∨ (toLowerCase v3 = "onedrive ".data ∧ x3.2 = [(1, v3)])) := by
    rcases List.mem_append.mp hx3 with h | h
    · simp only [List.mem_map] at h
      obtain ⟨z, hz, rfl⟩ := h
      obtain ⟨hc, v3, ht, hl⟩ :=
        mem_matchAt_lit (show z ∈ (Re.lit "onedrive ".data).matchAt x2.1 x2.2 from hz)
      refine ⟨v3, ht, Or.inr ⟨hl, ?_⟩⟩
      have e : List.take (x2.1.length - z.1.length) x2.1 = v3 := by
        rw [ht]; simp
      simp only [e, hc, hc2]
    · simp only [List.mem_singleton] at h
      subst h
      exact ⟨[], rfl, Or.inl ⟨rfl, hc2⟩⟩
  obtain ⟨v3, ht3, hl3⟩ := h3
  refine ⟨v1, v2, v3, v4, ?_, hl1, hl2, hl4, ?_⟩
  · rw [ht1, ht2, ht3, ht4]
  · rw [hc4]
    exact hl3

theorem showFiles_extract_onedrive {v3 : List Char}
    (h : toLowerCase v3 = "onedrive ".data) :
    showFilesConfig.extractParams [(1, v3)] = some [("source", .str "onedrive")] := by
  show some [("source", orDefault (some (trim (toLowerCase v3))) "local")] = _
  rw [h]
  rfl

/-- A match of a pattern of showFiles somewhere in a text: the text it consumes is a
phrase "show|list [my ][onedrive ]files" up to letter case, and the extractor returns
the source that this phrase names. -/
theorem showFiles_exec_phrase {q : Re} (hq : q ∈ showFilesConfig.patterns)
    {s : List Char} {m : Caps} (h : q.exec s = some m) :
    ∃ (onedrive : Bool) (pre v rest : List Char) (verb my : String),
      verb ∈ ["show", "list"] ∧ my ∈ ["my ", ""] ∧ s = pre ++ v ++ rest ∧
      toLowerCase v = (showFilesPhrase verb my onedrive).data ∧
      showFilesConfig.extractParams m
        = some [("source", .str (if onedrive = true then "onedrive" else "local"))] := by
  obtain ⟨pre, t, rest, hs, hmem⟩ := exec_eq_some_split h
  have key : ∀ verb : String, verb ∈ ["show", "list"] →
      (rest, m) ∈ (Re.seq (.lit (verb ++ " ").data) (.seq myOpt
        (.seq (.opt (.group 1 (.lit "onedrive ".data))) (.lit "files".data)))).matchAt t [] →
      ∃ (onedrive : Bool) (pre v rest : List Char) (verb my : String),
        verb ∈ ["show", "list"] ∧ my ∈ ["my ", ""] ∧ s = pre ++ v ++ rest ∧
        toLowerCase v = (showFilesPhrase verb my onedrive).data ∧
        showFilesConfig.extractParams m
          = some [("source", .str (if onedrive = true then "onedrive" else "local"))] := by
    intro verb hverb hm
    obtain ⟨v1, v2, v3, v4, ht, hl1, hl2, hl4, hl3⟩ := showFiles_matchAt hm
    have hv1 : toLowerCase v1 = (verb ++ " ").data := by
      rw [hl1]
      simp only [List.mem_cons, List.mem_singleton, List.not_mem_nil, or_false] at hverb
      rcases hverb with rfl | rfl <;> rfl
    have hsplit : s = pre ++ (v1 ++ (v2 ++ (v3 ++ v4))) ++ rest := by
      rw [hs, ht]
      simp only [List.append_assoc]
    rcases hl2 with rfl | hl2 <;> rcases hl3 with ⟨rfl, rfl⟩ | ⟨hl3, rfl⟩
    · refine ⟨false, pre, _, rest, verb, "", hverb, by simp, hsplit, ?_, rfl⟩
      simp only [toLowerCase_append, hv1, hl4, toLowerCase_nil, showFilesPhrase,
        String.data_append]
      simp
    · refine ⟨true, pre, _, rest, verb, "", hverb, by simp, hsplit, ?_,
        showFiles_extract_onedrive hl3⟩
      simp only [toLowerCase_append, hv1, hl4, hl3, toLowerCase_nil, showFilesPhrase,
        String.data_append]
      simp
    · refine ⟨false, pre, _, rest, verb, "my ", hverb, by simp, hsplit, ?_, rfl⟩
      simp only [toLowerCase_append, hv1, hl4, hl2, toLowerCase_nil, showFilesPhrase,
        String.data_append]
      simp
    · refine ⟨true, pre, _, rest, verb, "my ", hverb, by simp, hsplit, ?_,
        showFiles_extract_onedrive hl3⟩
      simp only [toLowerCase_append, hv1, hl4, hl3, hl2, toLowerCase_nil, showFilesPhrase,
        String.data_append]
      simp
  simp only [showFilesConfig, List.mem_cons, List.mem_singleton, List.not_mem_nil,
    or_false] at hq
  rcases hq with rfl | rfl
  · exact key "show" (by simp) hmem
  · exact key "list" (by simp) hmem

/-- A command that contains a phrase reading, up to letter case, as `form` includes
`form` once its ASCII letters are put in lower case. -/
theorem includes_of_contained {command x phrase y form : String}
    (hc : command = x ++ phrase ++ y) (hf : asciiLower phrase = form) :
    includes (asciiLower command) form = true := by
  subst hc
  subst hf
  unfold includes
  rw [List.any_eq_true]
  refine ⟨toLowerCase phrase.data ++ toLowerCase y.data, ?_, ?_⟩
  · rw [List.mem_tails]
    refine ⟨toLowerCase x.data, ?_⟩
    simp only [asciiLower, String.data_append, toLowerCase_append, List.append_assoc]
  · simp only [asciiLower]
    rw [List.isPrefixOf_iff_prefix]
    exact List.prefix_append _ _

/-- C8, counterexample: "list onedrive files then show files" contains the phrase
"list onedrive files", which names onedrive, and no pattern of an earlier intent
matches it, yet `parseCommand` returns showFiles with `{ source: 'local' }`: the
pattern with "show" is tried first and matches "show files". -/
theorem parseCommand_showFiles_counterexample :
    "list onedrive files then show files"
        = "" ++ "list onedrive files" ++ " then show files" ∧
      asciiLower "list onedrive files" = showFilesPhrase "list" "" true ∧
      (∀ i config p, (i, config) ∈ commandPatterns → i.rank < Intent.showFiles.rank →
        p ∈ config.patterns → p.test "list onedrive files then show files".data = false) ∧
      parseCommand "list onedrive files then show files"
        = .ok (.showFiles, [("source", .str "local")]) :=
  ⟨by decide, by decide,
    parseCommand_ok_earlier
      (show parseCommand "list onedrive files then show files"
        = .ok (.showFiles, [("source", .str "local")]) from rfl),
    rfl⟩

/-- C8, amended: a command that contains a phrase reading, up to the case of its ASCII
letters, "show|list [my ][onedrive ]files", and that no pattern of an earlier intent
matches, resolves to showFiles, and its `source` is the one named by a phrase of that
form contained in the command: "onedrive" when that phrase names onedrive, "local"
when it does not.  So when all phrases of that form contained in the command agree
with the given one on naming onedrive, and in particular when the command is the
given phrase, `source` is "onedrive" when onedrive is named and "local" when it is
not. -/
theorem parseCommand_showFiles_contained (command x0 phrase0 y0 verb0 my0 : String)
    (onedrive0 : Bool) (hc : command = x0 ++ phrase0 ++ y0)
    (hverb : verb0 ∈ ["show", "list"]) (hmy : my0 ∈ ["my ", ""])
    (hphrase : asciiLower phrase0 = showFilesPhrase verb0 my0 onedrive0)
    (hearlier : ∀ i config p, (i, config) ∈ commandPatterns →
      i.rank < Intent.showFiles.rank → p ∈ config.patterns →
      p.test command.data = false) :
    (∃ (onedrive : Bool) (x phrase y verb my : String),
        verb ∈ ["show", "list"] ∧ my ∈ ["my ", ""] ∧ command = x ++ phrase ++ y ∧
        asciiLower phrase = showFilesPhrase verb my onedrive ∧
        parseCommand command = .ok (.showFiles,
          [("source", .str (if onedrive = true then "onedrive" else "local"))])) ∧
      ((∀ (onedrive : Bool) (x phrase y verb my : String),
          verb ∈ ["show", "list"] → my ∈ ["my ", ""] → command = x ++ phrase ++ y →
          asciiLower phrase = showFilesPhrase verb my onedrive → onedrive = onedrive0) →
        parseCommand command = .ok (.showFiles,
          [("source", .str (if onedrive0 = true then "onedrive" else "local"))])) ∧
      (x0 = "" → y0 = "" →
        parseCommand command = .ok (.showFiles,
          [("source", .str (if onedrive0 = true then "onedrive" else "local"))])) := by
  have hexact := (parseCommand_showFiles_exact verb0 my0 onedrive0 phrase0 hverb hmy hphrase).1
  have first : ∃ (onedrive : Bool) (x phrase y verb my : String),
      verb ∈ ["show", "list"] ∧ my ∈ ["my ", ""] ∧ command = x ++ phrase ++ y ∧
      asciiLower phrase = showFilesPhrase verb my onedrive ∧
      parseCommand command = .ok (.showFiles,
        [("source", .str (if onedrive = true then "onedrive" else "local"))]) := by
    obtain ⟨config, p, hmem, hp, ht⟩ := test_append_of_ok hexact x0 y0
    rw [← hc] at ht
    obtain ⟨ps, hps⟩ := parseCommand_of_first_match hmem hp ht hearlier
    have hr := (parseCommand_eq_ok_iff command .showFiles ps).mp hps
    obtain ⟨⟨config2, m, hmem2, hfm, hpar⟩, _⟩ :=
      resolve_eq_some commandPatterns_rankSorted hr
    have hconfig : config2 = showFilesConfig := by
      simp only [commandPatterns, List.mem_cons, List.mem_singleton, List.not_mem_nil,
        or_false, Prod.mk.injEq] at hmem2
      rcases hmem2 with ⟨h, _⟩ | ⟨h, _⟩ | ⟨h, _⟩ | ⟨_, h⟩ | ⟨h, _⟩ | ⟨h, _⟩
      all_goals first | exact h | exact absurd h (by decide)
    subst hconfig
    obtain ⟨q, hq, hqm⟩ := firstMatch_eq_some hfm
    obtain ⟨onedrive, pre, v, rest, verb, my, hv, hm, hs, hl, hex⟩ :=
      showFiles_exec_phrase hq hqm
    refine ⟨onedrive, ⟨pre⟩, ⟨v⟩, ⟨rest⟩, verb, my, hv, hm, ?_, ?_, ?_⟩
    · apply String.ext
      rw [String.data_append, String.data_append]
      exact hs
    · apply String.ext
      exact hl
    · rw [hps]
      rw [hex, Option.some.injEq] at hpar
      rw [hpar]
  refine ⟨first, ?_, ?_⟩
  · intro huniq
    obtain ⟨onedrive, x, phrase, y, verb, my, hv, hm, hc2, hp2, hres⟩ := first
    rw [← huniq onedrive x phrase y verb my hv hm hc2 hp2]
    exact hres
  · intro hx hy
    subst hx hy
    rw [hc, String.empty_append, String.append_empty]
    exact hexact

/-- C8, amended, at "please show my onedrive files" with its phrase "show my onedrive
files": no pattern of an earlier intent matches it and it contains none of "show
files", "show my files", "list files", "list my files", so the only phrases of the
form that it contains name onedrive; it resolves to showFiles with
`{ source: 'onedrive' }`. -/
theorem parseCommand_showFiles_contained_witness :
    (∃ (onedrive : Bool) (x phrase y verb my : String),
        verb ∈ ["show", "list"] ∧ my ∈ ["my ", ""] ∧
        "please show my onedrive files" = x ++ phrase ++ y ∧
        asciiLower phrase = showFilesPhrase verb my onedrive ∧
        parseCommand "please show my onedrive files" = .ok (.showFiles,
          [("source", .str (if onedrive = true then "onedrive" else "local"))])) ∧
      parseCommand "please show my onedrive files"
        = .ok (.showFiles, [("source", .str "onedrive")]) :=
  have h := parseCommand_showFiles_contained "please show my onedrive files" "please "
    "show my onedrive files" "" "show" "my " true (by decide) (by simp) (by simp)
    (by decide)
    (parseCommand_ok_earlier
      (show parseCommand "please show my onedrive files"
        = .ok (.showFiles, [("source", .str "onedrive")]) from rfl))
  ⟨h.1, h.2.1 (by
    intro onedrive x phrase y verb my hv hm hc hp
    cases onedrive with
    | true => rfl
    | false =>
      have hi := includes_of_contained hc hp
      simp only [List.mem_cons, List.mem_singleton, List.not_mem_nil, or_false] at hv hm
      rcases hv with rfl | rfl <;> rcases hm with rfl | rfl <;>
        exact absurd hi (by decide))⟩

/-! ## Extending a command -/

/-- C30: when `parseCommand` resolves a command, it also resolves the command with
any text before and after it, to the same intent or to one earlier in the table. -/
theorem parseCommand_extends (c x y : String) (i : Intent) (ps : Parameters)
    (h : parseCommand c = .ok (i, ps)) :
    ∃ j qs, parseCommand (x ++ c ++ y) = .ok (j, qs) ∧ j.rank ≤ i.rank := by
  have hr := (parseCommand_eq_ok_iff c i ps).mp h
  obtain ⟨⟨config, m, hmem, hfm, _⟩, _⟩ := resolve_eq_some commandPatterns_rankSorted hr
  obtain ⟨p, hp, hm⟩ := firstMatch_eq_some hfm
  have ht : p.test c.data = true := (test_eq_true_iff _ _).mpr ⟨m, hm⟩
  have ht2 : p.test (x ++ c ++ y).data = true := by
    rw [String.data_append, String.data_append]
    exact test_append x.data y.data ht
  exact parseCommand_of_some_match hmem hp ht2

/-- C30 at "update my calendar" with "please sync my emails and " before it and
" now" after it: the longer command resolves too, to the earlier intent syncEmails. -/
theorem parseCommand_extends_witness :
    parseCommand "update my calendar" = .ok (.updateCalendar, []) ∧
      parseCommand ("please sync my emails and " ++ "update my calendar" ++ " now")
        = .ok (.syncEmails, [("provider", .str "all")]) ∧
      ∃ j qs, parseCommand ("please sync my emails and " ++ "update my calendar" ++ " now")
          = .ok (j, qs) ∧ j.rank ≤ Intent.updateCalendar.rank :=
  ⟨rfl, rfl,
    parseCommand_extends "update my calendar" "please sync my emails and " " now"
      .updateCalendar [] rfl⟩

end Dareon2
